import Mathlib

/-!
Verification development for the HWPX template-filling scripts
(`scripts/write_hwpx.py` and `scripts/expand_template.py`).

The document tree is shallowly embedded:

* text is `List Char` (`Text`); Python `str.strip` is `trim`, substring
  containment (`in`) is `isSub`, `str.replace` is `repl`, f-string decimal
  rendering of a non-negative int is `natToDigits`;
* an `hp:run` carries an optional direct `hp:t` child (its text) and an
  optional embedded `hp:tbl` subtree, represented by the list of texts of the
  `hp:t` nodes inside it (document order, the direct `hp:t` taken first);
* an `hp:p` is its list of runs plus a flag for a cached `linesegarray`;
* the schedule tables (`hp:tbl` / `hp:tr` / `hp:tc`) are embedded separately:
  a cell holds its paragraphs, an optional `cellAddr/@rowAddr` and an optional
  `cellSz/@height`; a table holds its direct rows, its `@rowCnt` and an
  optional `sz/@height`.  Heights are `Int` (Python ints).

Imperative sibling insertion (`parent.insert(i, node)`) is modelled by list
splicing; iteration over a snapshot of children with in-place mutation is
modelled by structural recursion that rebuilds the list.
-/

namespace KGrant

/-- Text of one XML text node / Python string. -/
abbrev Text := List Char

/-- Whitespace for Python's default `str.strip`. -/
def isWS (c : Char) : Bool :=
  c == ' ' || c == '\t' || c == '\n' || c == '\r'

/-- Python `str.strip()`. -/
def trim (x : Text) : Text :=
  ((x.dropWhile isWS).reverse.dropWhile isWS).reverse

/-- Python `str.startswith` / prefix test on char lists. -/
def isPre : Text → Text → Bool
  | [], _ => true
  | _ :: _, [] => false
  | a :: as, b :: bs => a == b && isPre as bs

/-- Python `needle in haystack` (substring containment). -/
def isSub (pat : Text) : Text → Bool
  | [] => pat.isEmpty
  | b :: bs => isPre pat (b :: bs) || isSub pat bs

/-- One step of Python `str.replace`: leftmost-first, non-overlapping
    replacement of the non-empty pattern `p0 :: pt` by `rep`.  The extra
    fuel argument makes the recursion structural; each step consumes at
    least one character, so the fuel `repl` supplies (the text's length)
    is never exhausted on a non-empty text. -/
def replGo (p0 : Char) (pt rep : Text) : Nat → Text → Text
  | _, [] => []
  | 0, _ :: _ => []
  | fuel + 1, c :: cs =>
    if isPre (p0 :: pt) (c :: cs) then
      rep ++ replGo p0 pt rep fuel ((c :: cs).drop (pt.length + 1))
    else
      c :: replGo p0 pt rep fuel cs

/-- Python `s.replace(pat, rep)` (all the patterns used are non-empty;
    the empty-pattern case is the identity here). -/
def repl (pat rep s : Text) : Text :=
  match pat with
  | [] => s
  | p0 :: pt => replGo p0 pt rep s.length s

/-- Character `'0' + d` for a digit value `d < 10`. -/
def digitChar (d : Nat) : Char := Char.ofNat (48 + d % 10)

/-- Decimal digits of a natural number, fuel-structural: each step divides
    by 10, so fuel `n + 1` is never exhausted. -/
def natToDigitsGo : Nat → Nat → Text
  | 0, _ => []
  | fuel + 1, n =>
    if n < 10 then [digitChar n]
    else natToDigitsGo fuel (n / 10) ++ [digitChar (n % 10)]

/-- Decimal digits of a natural number, as Python's `f'{n}'` renders it. -/
def natToDigits (n : Nat) : Text := natToDigitsGo (n + 1) n

/-- Python `str.isdigit` (restricted to ASCII digits, which is all that the
    month-number cells can contain). -/
def isDigitStr (x : Text) : Bool :=
  !x.isEmpty && x.all Char.isDigit

/-- Concatenation of a list of texts. -/
def catTexts (l : List Text) : Text := l.foldr (· ++ ·) []

/-! ## Paragraphs and runs (`write_hwpx.py` helpers) -/

/-- An `hp:run`: `t` is the direct `hp:t` child (if any), `tbl` the embedded
    `hp:tbl` subtree (if any), kept as the texts of its `hp:t` descendants. -/
structure Run where
  t : Option Text
  tbl : Option (List Text)
deriving DecidableEq, Repr

instance : Inhabited Run := ⟨⟨none, none⟩⟩

/-- An `hp:p`: its runs and whether it still carries a `linesegarray` cache. -/
structure Para where
  runs : List Run
  lineseg : Bool
deriving DecidableEq, Repr

instance : Inhabited Para := ⟨⟨[], false⟩⟩

/-- Texts of the `hp:t` nodes of one run, in document order. -/
def runTexts (r : Run) : List Text :=
  (match r.t with | some x => [x] | none => []) ++ r.tbl.getD []

/-- Texts of all `hp:t` nodes of a paragraph. -/
def paraTNodes (p : Para) : List Text :=
  (p.runs.map runTexts).foldr (· ++ ·) []

/-- Model of `get_all_text`: join all `hp:t` texts and strip. -/
def rawPara (p : Para) : Text := catTexts (paraTNodes p)

/-- Model of `get_all_text(p)` for a paragraph. -/
def paraText (p : Para) : Text := trim (rawPara p)

/-- Model of `set_para_text(p, new_text)`: drop runs holding an embedded table, strip
    the layout cache, then overwrite the text of the first run that has an
    `hp:t` child; if none has one, append a fresh run carrying the text. -/
def setFirstT : List Run → Text → Option (List Run)
  | [], _ => none
  | r :: rest, s =>
    match r.t with
    | some _ => some ({ r with t := some s } :: rest)
    | none => (setFirstT rest s).map (r :: ·)

def setParaText (p : Para) (s : Text) : Para :=
  let kept := p.runs.filter (fun r => r.tbl = none)
  match setFirstT kept s with
  | some rs => ⟨rs, false⟩
  | none => ⟨kept ++ [⟨some s, none⟩], false⟩

/-- Model of `make_content_para(template_p, text)`: deep-copy, drop embedded-table
    runs, strip the cache, then set the text in the first remaining run
    (writing a fresh `hp:t` into it when it has none); when no run remains,
    append a fresh run carrying the text. -/
def makeContentPara (p : Para) (s : Text) : Para :=
  let kept := p.runs.filter (fun r => r.tbl = none)
  match kept with
  | [] => ⟨[⟨some s, none⟩], false⟩
  | r :: rest => ⟨{ r with t := some s } :: rest, false⟩

/-! ## Generic placeholder filling (`find_all_placeholder_paras`,
    `replace_placeholder`, and the reverse-order loop in
    `modify_application`) -/

/-- The placeholder sentinel `'○     -'`. -/
def sentinel : Text := "○     -".toList

/-- Model of `find_all_placeholder_paras`: snapshot of `(index, paragraph)` pairs for
    the paragraphs whose text equals the sentinel, in document order,
    starting the position count at `i0`. -/
def placeholderSnap (i0 : Nat) : List Para → List (Nat × Para)
  | [] => []
  | p :: rest =>
    if paraText p == sentinel then (i0, p) :: placeholderSnap (i0 + 1) rest
    else placeholderSnap (i0 + 1) rest

/-- Model of `replace_placeholder`: with non-empty content, insert one clone per line
    where the placeholder stood and drop the placeholder; with empty content,
    leave the document alone. -/
def replacePlaceholder (doc : List Para) (p : Para) (idx : Nat)
    (lines : List Text) : List Para :=
  if lines.isEmpty then doc
  else doc.take idx ++ lines.map (makeContentPara p) ++ doc.drop (idx + 1)

/-- The reverse-order loop of `modify_application`, already reversed: the
    head of `snapRev` is the placeholder occurring last in the document.
    `contents` maps each placeholder's rank (position in the snapshot) to
    its content lines; a missing rank means no content. -/
def fillFromSnap (contents : List (List Text)) :
    List (Nat × Nat × Para) → List Para → List Para
  | [], doc => doc
  | (rank, idx, p) :: rest, doc =>
    let c := contents.getD rank []
    fillFromSnap contents rest
      (if c.isEmpty then doc else replacePlaceholder doc p idx c)

/-- Ranks attached to a snapshot, in document order, starting at `r0`. -/
def rankSnap (r0 : Nat) : List (Nat × Para) → List (Nat × Nat × Para)
  | [] => []
  | (idx, p) :: rest => (r0, idx, p) :: rankSnap (r0 + 1) rest

/-- Placeholder filling as `modify_application` performs it: build the
    snapshot, then process it in reverse document order. -/
def fillPlaceholders (doc : List Para) (contents : List (List Text)) :
    List Para :=
  fillFromSnap contents (rankSnap 0 (placeholderSnap 0 doc)).reverse doc

/-- Specification side of the placeholder-filling refinement, following the
    spec's words for ContentFiller (a): each sentinel paragraph, taken left
    to right with its positional rank, is replaced in place by one clone per
    content line, or kept when its content is empty or absent; all other
    paragraphs are kept.  Compared against the reverse-order implementation
    in the C7 theorem. -/
def placeholderFillSpec (contents : List (List Text)) (rank : Nat) :
    List Para → List Para
  | [] => []
  | p :: rest =>
    if paraText p == sentinel then
      let c := contents.getD rank []
      (if c.isEmpty then [p] else c.map (makeContentPara p))
        ++ placeholderFillSpec contents (rank + 1) rest
    else p :: placeholderFillSpec contents rank rest

/-! ## Year-block expansion (`expand_year_blocks` and helpers) -/

/-- Test `'□' in text and '차년도' in text` for a year-block header
    paragraph — the test for a year-block header
    paragraph, reused by the block collectors and the section scanners. -/
def squareYear (t : Text) : Bool :=
  isSub "□".toList t && isSub "차년도".toList t

/-- Block collection from the siblings after the anchor: stop (exclusively)
    before the next year-block header; with `stopOnBlank` (the goal-block
    variant) an empty-text paragraph is kept and ends the block.  Returns
    the block body and the remaining siblings. -/
def splitBlock (stopOnBlank : Bool) : List Para → List Para × List Para
  | [] => ([], [])
  | q :: rest =>
    if squareYear (paraText q) then ([], q :: rest)
    else if stopOnBlank && paraText q == [] then ([q], rest)
    else
      let (bd, tl) := splitBlock stopOnBlank rest
      (q :: bd, tl)

/-- The per-clone rewrite: paragraphs mentioning `2차년도` get their text
    rewritten with the target year (a deep copy is made first; copies are
    values here). -/
def cloneYear (yr : Nat) (p : Para) : Para :=
  let tx := paraText p
  if isSub "2차년도".toList tx then
    setParaText p (repl "2차년도".toList (natToDigits yr ++ "차년도".toList) tx)
  else p

/-- The scan shared by `_expand_goal_year_blocks` and
    `_expand_content_year_blocks`: find paragraphs whose text equals
    `target`; rewrite each match to `newText`; when `totalYears ≥ 3`, the
    first match additionally collects its block and inserts one rewritten
    copy of the whole block per year `3 .. totalYears` right after it, and
    the scan stops there (`break`). -/
def expandScan (stopOnBlank : Bool) (target newText : Text) (ty : Nat) :
    List Para → List Para
  | [] => []
  | p :: rest =>
    if paraText p == target then
      let p' := setParaText p newText
      if ty < 3 then p' :: expandScan stopOnBlank target newText ty rest
      else
        let (body, tl) := splitBlock stopOnBlank rest
        p' :: body
          ++ (List.range' 3 (ty - 2)).foldr
              (fun yr acc => (p' :: body).map (cloneYear yr) ++ acc) []
          ++ tl
    else p :: expandScan stopOnBlank target newText ty rest

/-- Anchor text of `_expand_goal_year_blocks`. -/
def goalTarget : Text := "□ N차년도(N단계) 목표:".toList

/-- Rewritten goal anchor `'□ 2차년도({stage}단계) 목표:'`. -/
def goalNew (stage : Nat) : Text :=
  "□ 2차년도(".toList ++ natToDigits stage ++ "단계) 목표:".toList

/-- Anchor text of `_expand_content_year_blocks`. -/
def contentTarget : Text := "□ N차년도(N단계)".toList

/-- Rewritten content anchor `'□ 2차년도({stage}단계)'`. -/
def contentNew (stage : Nat) : Text :=
  "□ 2차년도(".toList ++ natToDigits stage ++ "단계)".toList

/-- Model of `_expand_goal_year_blocks`. -/
def expandGoalYearBlocks (doc : List Para) (ty stage : Nat) : List Para :=
  expandScan true goalTarget (goalNew stage) ty doc

/-- Model of `_expand_content_year_blocks`. -/
def expandContentYearBlocks (doc : List Para) (ty stage : Nat) : List Para :=
  expandScan false contentTarget (contentNew stage) ty doc

/-- Pattern `'N차년도'`. -/
def patNYear : Text := "N차년도".toList

/-- Pattern `'N단계'`. -/
def patNStage : Text := "N단계".toList

/-- Model of `_fix_all_n_year_text` on one `hp:t` text: replace any remaining
    `N차년도` / `N단계`, each replacement guarded by a containment test. -/
def fixT (ty stage : Nat) (x : Text) : Text :=
  let x1 := if isSub patNYear x then
      repl patNYear (natToDigits ty ++ "차년도".toList) x
    else x
  if isSub patNStage x1 then
    repl patNStage (natToDigits stage ++ "단계".toList) x1
  else x1

/-- Model of `_fix_all_n_year_text` on one run (every `hp:t` under the root is
    rewritten, including the ones inside embedded tables). -/
def fixRun (ty stage : Nat) (r : Run) : Run :=
  ⟨r.t.map (fixT ty stage), r.tbl.map (List.map (fixT ty stage))⟩

/-- Model of `_fix_all_n_year_text` on one paragraph. -/
def fixPara (ty stage : Nat) (p : Para) : Para :=
  ⟨p.runs.map (fixRun ty stage), p.lineseg⟩

/-- Model of `_fix_all_n_year_text`. -/
def fixAllNYearText (doc : List Para) (ty stage : Nat) : List Para :=
  doc.map (fixPara ty stage)

/-- Model of `expand_year_blocks`: goal blocks, then content blocks, then the final
    sweep over all text nodes. -/
def expandYearBlocks (doc : List Para) (ty stage : Nat) : List Para :=
  fixAllNYearText (expandContentYearBlocks (expandGoalYearBlocks doc ty stage) ty stage)
    ty stage

/-! ## Yearly goal filling (`fill_yearly_goals`) -/

/-- Python dict lookup on an association list (a dict with distinct keys;
    `alookup m k = some v` is `k in m and m[k] == v`). -/
def alookup {α : Type} (m : List (Text × α)) (k : Text) : Option α :=
  match m with
  | [] => none
  | e :: rest => if e.1 == k then some e.2 else alookup rest k

/-- Guard `year_key in data and data[year_key]` for string-valued data. -/
def keyHas (data : List (Text × Text)) (k : Text) : Bool :=
  match alookup data k with
  | some v => !v.isEmpty
  | none => false

/-- Key `f'year{year_idx}_{role}'`. -/
def yearRoleKey (yearIdx : Nat) (role : Text) : Text :=
  "year".toList ++ natToDigits yearIdx ++ "_".toList ++ role

/-- The three goal label lines. -/
def mainLabel : Text := "○ (주관연구개발과제):".toList
def jointLabel : Text := "○ (공동연구개발과제):".toList
def contractedLabel : Text := "○ (위탁연구개발과제):".toList

/-- One conditional rewrite of `fill_yearly_goals`: when the `seen_square`
    flag is up, the text equals `label` and the year-scoped key has a
    non-empty value, rewrite to `label + ' ' + value`. -/
def fygRewrite (data : List (Text × Text)) (seenSq : Bool) (yearIdx : Nat)
    (label : Text) (role : Text) (p : Para) : Para :=
  if seenSq then
    let k := yearRoleKey yearIdx role
    match alookup data k with
    | some v => if v.isEmpty then p else setParaText p (label ++ " ".toList ++ v)
    | none => p
  else p

/-- The scan of `fill_yearly_goals`, position `i` running over the document;
    `goalIdx` / `contentIdx` are the positions of the first paragraph
    containing the opening / closing section titles (identity of the found
    nodes).  The closing anchor breaks the scan. -/
def fygGo (data : List (Text × Text)) (goalIdx contentIdx : Option Nat)
    (i : Nat) (inGoal seenSq : Bool) (yearIdx : Nat) :
    List Para → List Para
  | [] => []
  | p :: rest =>
    if goalIdx == some i then
      p :: fygGo data goalIdx contentIdx (i + 1) true seenSq yearIdx rest
    else if contentIdx == some i then p :: rest
    else if !inGoal then
      p :: fygGo data goalIdx contentIdx (i + 1) inGoal seenSq yearIdx rest
    else
      let tx := paraText p
      if squareYear tx then
        p :: fygGo data goalIdx contentIdx (i + 1) inGoal true (yearIdx + 1) rest
      else
        let p' :=
          if seenSq && tx == mainLabel then
            fygRewrite data seenSq yearIdx mainLabel "main".toList p
          else if seenSq && tx == jointLabel then
            fygRewrite data seenSq yearIdx jointLabel "joint".toList p
          else if seenSq && tx == contractedLabel then
            fygRewrite data seenSq yearIdx contractedLabel "contracted".toList p
          else p
        p' :: fygGo data goalIdx contentIdx (i + 1) inGoal seenSq yearIdx rest

/-- Model of `find_para_by_text`: position of the first paragraph whose text contains
    `needle`. -/
def findParaIdx (needle : Text) (doc : List Para) : Option Nat :=
  (doc.findIdx? (fun p => isSub needle (paraText p)))

/-- Model of `fill_yearly_goals`. -/
def fillYearlyGoals (doc : List Para) (data : List (Text × Text)) : List Para :=
  let goalIdx := findParaIdx "가. 연구개발 목표".toList doc
  let contentIdx := findParaIdx "3) 연구개발과제의 내용".toList doc
  fygGo data goalIdx contentIdx 0 false false 0 doc

/-- Replay of the scan state of `fill_yearly_goals`: the `(in_goal,
    seen_square, year_idx)` triple in effect when the scan reaches relative
    position `j` of the remaining paragraph list.  The state transitions
    mirror `fygGo` exactly and depend only on the document, never on the
    data mapping. -/
def fygStateAt (gi ci : Option Nat) (i : Nat) (ig ss : Bool) (yi : Nat) :
    List Para → Nat → Bool × Bool × Nat
  | [], _ => (ig, ss, yi)
  | _ :: _, 0 => (ig, ss, yi)
  | p :: rest, j + 1 =>
    if gi == some i then fygStateAt gi ci (i + 1) true ss yi rest j
    else if ci == some i then (ig, ss, yi)
    else if !ig then fygStateAt gi ci (i + 1) ig ss yi rest j
    else if squareYear (paraText p) then
      fygStateAt gi ci (i + 1) ig true (yi + 1) rest j
    else fygStateAt gi ci (i + 1) ig ss yi rest j

/-- Year index `year_idx` governing the paragraph at position `j` of the
    document during the `fill_yearly_goals` scan (count of `□ …차년도`
    markers seen before `j` inside the goal section). -/
def fygYearIdxAt (doc : List Para) (j : Nat) : Nat :=
  (fygStateAt (findParaIdx "가. 연구개발 목표".toList doc)
    (findParaIdx "3) 연구개발과제의 내용".toList doc) 0 false false 0 doc j).2.2

/-! ## Content-line groups (`_fill_org_content_lines`) -/

/-- Marker `'- 연구개발 내용'` opening a detail line. -/
def detailMark : Text := "- 연구개발 내용".toList

/-- The window scan of `_fill_org_content_lines`: positions (relative to the
    sibling list after the `○` paragraph) of the existing detail lines, at
    most `fuel` siblings inspected (19 in the source: `range(idx+1,
    min(idx+20, len))`); `has` records whether a detail line was already
    collected (a blank line then ends the run). -/
def collectDetail (fuel pos : Nat) (has : Bool) : List Para → List Nat
  | [] => []
  | q :: rest =>
    match fuel with
    | 0 => []
    | fuel' + 1 =>
      let st := paraText q
      if isPre detailMark st then
        pos :: collectDetail fuel' (pos + 1) true rest
      else if has && st == [] then []
      else if isSub "○".toList st || isSub "□".toList st then []
      else collectDetail fuel' (pos + 1) has rest

/-- Write step of `_fill_org_content_lines`: the `k`-th detail line gets
    `'   - ' + items[k]`, lines beyond the items are cleared. -/
def detailWrite (items : List Text) (k : Nat) (p : Para) : Para :=
  if h : k < items.length then
    setParaText p ("   - ".toList ++ items.get ⟨k, h⟩)
  else setParaText p []

/-- Apply `f i` at position `j` (identity when out of range) —
    the model of one in-place sibling mutation. -/
def listModify {α : Type} (f : α → α) (j : Nat) : List α → List α
  | [] => []
  | a :: rest =>
    match j with
    | 0 => f a :: rest
    | j' + 1 => a :: listModify f j' rest

/-- Sequential writes at the given positions, the `k`-th position receiving
    the `k`-th write. -/
def writeAt {α : Type} (f : Nat → α → α) : List Nat → Nat → List α → List α
  | [], _, l => l
  | j :: rest, k, l => writeAt f rest (k + 1) (listModify (f k) j l)

/-- Model of `_fill_org_content_lines`, acting on the siblings after the matched `○`
    paragraph (`after = parent[idx+1:]`); the caller re-attaches the prefix.
    With no items or no detail line found in the 19-sibling window, the
    sibling list is returned untouched.  Otherwise the last found line is
    cloned until there are enough lines (each clone a copy of that same
    template, inserted right after the most recently inserted line), then
    every line is written or cleared by position. -/
def fillOrgContentAfter (after : List Para) (items : List Text) : List Para :=
  if items.isEmpty then after
  else
    let found := collectDetail 19 0 false after
    match found.getLast? with
    | none => after
    | some last =>
      let tmpl := after.getD last default
      let needed := items.length - found.length
      let after1 := after.take (last + 1) ++ List.replicate needed tmpl
        ++ after.drop (last + 1)
      let allPos := found ++ List.range' (last + 1) needed
      writeAt (detailWrite items) allPos 0 after1

/-- Model of `_fill_org_content_lines(parent, org_para_idx, items)`. -/
def fillOrgContentLines (parent : List Para) (idx : Nat) (items : List Text) :
    List Para :=
  parent.take (idx + 1) ++ fillOrgContentAfter (parent.drop (idx + 1)) items

/-! ## Tables (`hp:tbl` / `hp:tr` / `hp:tc`) -/

/-- An `hp:tc`: its paragraphs, the `cellAddr/@rowAddr` (if the cell has a
    `cellAddr` element) and the `cellSz/@height` (if it has a `cellSz`). -/
structure Cell where
  paras : List Para
  rowAddr : Option Nat
  cellSz : Option Int
deriving DecidableEq, Repr

instance : Inhabited Cell := ⟨⟨[], none, none⟩⟩

/-- An `hp:tr`: its direct `hp:tc` children. -/
structure Row where
  cells : List Cell
deriving DecidableEq, Repr

instance : Inhabited Row := ⟨⟨[]⟩⟩

/-- An `hp:tbl`: its direct `hp:tr` children, the `@rowCnt` attribute and
    the `sz/@height` attribute (if the table has a `sz`). -/
structure Table where
  rows : List Row
  rowCnt : Nat
  szHeight : Option Int
deriving DecidableEq, Repr

instance : Inhabited Table := ⟨⟨[], 0, none⟩⟩

/-- Model of `get_all_text` over a cell (all `hp:t` texts of all its paragraphs,
    joined and stripped; the `.strip()` the callers add is idempotent). -/
def cellText (c : Cell) : Text :=
  trim (catTexts (c.paras.map rawPara))

/-- Model of `set_cell_text(tc, new_text)`: rewrite the first paragraph of the cell;
    a cell without paragraphs is left alone (the call returns `False`). -/
def setCellText (c : Cell) (s : Text) : Cell :=
  match c.paras with
  | [] => c
  | p :: rest => ⟨setParaText p s :: rest, c.rowAddr, c.cellSz⟩

/-! ### `expand_template.py` bookkeeping -/

/-- Model of `renumber_row_addrs`, inner loop: row at position `i` gets every cell's
    `rowAddr` (when the cell has a `cellAddr`) set to `i`. -/
def renumGo (i : Nat) : List Row → List Row
  | [] => []
  | r :: rest =>
    ⟨r.cells.map (fun c => { c with rowAddr := c.rowAddr.map (fun _ => i) })⟩
      :: renumGo (i + 1) rest

/-- Model of `renumber_row_addrs(tbl)`. -/
def renumberRowAddrs (t : Table) : Table :=
  { t with rows := renumGo 0 t.rows }

/-- Height contribution of a row: `cellSz/@height` of its first cell
    (0 when the row has no cells or the first cell has no `cellSz`). -/
def firstCellHeight (r : Row) : Int :=
  match r.cells with
  | [] => 0
  | c :: _ => c.cellSz.getD 0

/-- Total `total_h` of `recalc_heights`: sum over direct rows of the first cell's
    height. -/
def sumRowHeights (t : Table) : Int :=
  t.rows.foldl (fun a r => a + firstCellHeight r) 0

/-- Model of `recalc_heights(inner_tbl, outer_tbl)`: set the inner `sz/@height` to the
    recomputed total and add the same delta to the outer `sz/@height`
    (nothing happens to a table without a `sz`). -/
def recalcHeights (inner : Table) (outer : Option Table) :
    Table × Option Table :=
  let total := sumRowHeights inner
  match inner.szHeight with
  | none => (inner, outer)
  | some oldInner =>
    let inner' := { inner with szHeight := some total }
    match outer with
    | none => (inner', none)
    | some o =>
      match o.szHeight with
      | none => (inner', some o)
      | some oldOuter =>
        (inner', some { o with szHeight := some (oldOuter + (total - oldInner)) })

/-- Steps 7–8(+8bis) of `expand_template.expand_template`, performed
    unconditionally after the (possibly zero) row growth: set `@rowCnt` to
    the direct-row count, renumber every `cellAddr/@rowAddr`, recompute the
    heights. -/
def templateBookkeeping (inner : Table) (outer : Option Table) :
    Table × Option Table :=
  let t1 := { inner with rowCnt := inner.rows.length }
  recalcHeights (renumberRowAddrs t1) outer

/-! ### Schedule filling (`_fill_schedule_tbl`) -/

/-- One schedule entry: `{'task': ..., 'result': ...}` with the `.get`
    defaults already applied. -/
structure Task where
  task : Text
  result : Text
deriving DecidableEq, Repr

instance : Inhabited Task := ⟨⟨[], []⟩⟩

/-- Key `f'year{n}'`. -/
def yearKey (n : Nat) : Text := "year".toList ++ natToDigits n

/-- Map `year_label_map`, in dict insertion order: the two fixed labels, then
    `'{yr}차년도'` / `'{yr}차 년도'` for `yr = 3 .. total_years`, then the
    two `N`-labels mapping to the final year. -/
def yearLabelMap (ty : Nat) : List (Text × Text) :=
  [("1차 년도".toList, "year1".toList), ("2차 년도".toList, "year2".toList)]
    ++ (List.range' 3 (ty - 2)).foldr
        (fun yr acc =>
          (natToDigits yr ++ "차년도".toList, yearKey yr)
            :: (natToDigits yr ++ "차 년도".toList, yearKey yr) :: acc) []
    ++ [("N차년도".toList, yearKey ty), ("N차 년도".toList, yearKey ty)]

/-- The label match of the year-header branch: first map entry whose label
    occurs as a substring of the cell text. -/
def matchYearLabel (ty : Nat) (tx : Text) : Option Text :=
  match (yearLabelMap ty).find? (fun e => isSub e.1 tx) with
  | some e => some e.2
  | none => none

/-- One collected section of pass 1: its year key, the position of its
    header row and the positions of the rows collected as task rows. -/
structure Sect where
  key : Text
  headerIdx : Nat
  taskIdxs : List Nat
deriving DecidableEq, Repr

/-- The three column-header labels. -/
def isColHeader (tx : Text) : Bool :=
  tx == "추진내용".toList || tx == "추진 일정".toList || tx == "결과물".toList

/-- Pass 1 of `_fill_schedule_tbl`: classify the direct rows.  A 1-cell row
    matching a year label opens a new section (flushing the current one); a
    column-header row is skipped; a 12-cell row with at least one all-digit
    cell is skipped (the source's month-number test uses `any`, its comment
    says "all digits"); anything else after a header joins the current
    section's task rows. -/
def classifyGo (ty : Nat) : List Row → Nat → Option Sect → List Sect → List Sect
  | [], _, cur, acc => acc ++ cur.toList
  | r :: rest, i, cur, acc =>
    match r.cells with
    | [] => classifyGo ty rest (i + 1) cur acc
    | c0 :: _ =>
      let t0 := cellText c0
      match (if r.cells.length == 1 then matchYearLabel ty t0 else none) with
      | some key => classifyGo ty rest (i + 1) (some ⟨key, i, []⟩) (acc ++ cur.toList)
      | none =>
        if isColHeader t0 then classifyGo ty rest (i + 1) cur acc
        else if r.cells.length == 12 && r.cells.any (fun c => isDigitStr (cellText c)) then
          classifyGo ty rest (i + 1) cur acc
        else
          match cur with
          | some s => classifyGo ty rest (i + 1) (some ⟨s.key, s.headerIdx, s.taskIdxs ++ [i]⟩) acc
          | none => classifyGo ty rest (i + 1) none acc

/-- Pass 1 on a table. -/
def collectSections (ty : Nat) (t : Table) : List Sect :=
  classifyGo ty t.rows 0 none []

/-- Lookup `schedule_data.get(year_key, [])`. -/
def sectionTasks (sched : List (Text × List Task)) (s : Sect) : List Task :=
  (alookup sched s.key).getD []

/-- The header fix of pass 2: when the header cell text contains `N차년도`,
    rewrite the cell with the year substituted. -/
def fixHeaderRow (ty : Nat) (r : Row) : Row :=
  match r.cells with
  | [] => r
  | c :: rest =>
    let ht := cellText c
    if isSub patNYear ht then
      ⟨setCellText c (repl patNYear (natToDigits ty ++ "차년도".toList) ht) :: rest⟩
    else r

/-- The writable rows of a section: for `year1` only the 26-cell rows (the
    24-cell Gantt-bar rows are skipped), otherwise every collected task row.
    Positions are the pass-1 positions shifted by the insertions `off` made
    for earlier sections (insertions always land strictly before later
    sections' rows, so a uniform shift models the live sibling list). -/
def baseWritable (rows : List Row) (off : Nat) (s : Sect) : List Nat :=
  let shifted := s.taskIdxs.map (· + off)
  if s.key == "year1".toList then
    shifted.filter (fun j => (rows.getD j default).cells.length == 26)
  else shifted

/-- The cloned-row scrub: every `hp:t` under the row is set to the empty
    text and every `linesegarray` removed; `cellAddr` and `cellSz` are
    untouched. -/
def clearRun (r : Run) : Run :=
  ⟨r.t.map (fun _ => []), r.tbl.map (List.map (fun _ => []))⟩

def clearPara (p : Para) : Para := ⟨p.runs.map clearRun, false⟩

def clearRowTexts (r : Row) : Row :=
  ⟨r.cells.map (fun c => { c with paras := c.paras.map clearPara })⟩

/-- Number of rows pass 2 clones for a section (0 unless there are tasks,
    the section collected at least one task row, and the writable rows are
    too few). -/
def sectionNeeded (tasks : List Task) (s : Sect) (w0 : List Nat) : Nat :=
  if !tasks.isEmpty && !s.taskIdxs.isEmpty && w0.length < tasks.length then
    tasks.length - w0.length
  else 0

/-- Apply `f` to the last element. -/
def setLast {α : Type} (f : α → α) : List α → List α
  | [] => []
  | [a] => [f a]
  | a :: b :: rest => a :: setLast f (b :: rest)

/-- The write step of pass 2 on one writable row: `strip_linesegarray(row)`
    looks for direct `linesegarray` children of the `hp:tr` (there are none,
    so it is a no-op); position `i` within the input gets the task into the
    first cell and the result into the last (when the row has more than one
    cell), positions beyond the input get both cleared.  A row without cells
    cannot occur here (pass 1 only collects rows with cells). -/
def fillRowStep (tasks : List Task) (i : Nat) (r : Row) : Row :=
  match r.cells with
  | [] => r
  | _ =>
    if h : i < tasks.length then
      let tk := tasks.get ⟨i, h⟩
      let cells1 := (r.cells.modifyHead (fun c => setCellText c tk.task))
      ⟨if r.cells.length > 1 then setLast (fun c => setCellText c tk.result) cells1
        else cells1⟩
    else
      let cells1 := (r.cells.modifyHead (fun c => setCellText c []))
      ⟨if r.cells.length > 1 then setLast (fun c => setCellText c []) cells1
        else cells1⟩

/-- The rows after the header fix of one section. -/
def headerFixedRows (ty : Nat) (rows : List Row) (off : Nat) (s : Sect) :
    List Row :=
  listModify (fixHeaderRow ty) (s.headerIdx + off) rows

/-- The rows after the cloning step of one section: `needed` scrubbed copies
    of the last collected task row, inserted one after the other right after
    it. -/
def clonedRows (rows1 : List Row) (off : Nat) (s : Sect) (needed : Nat) :
    List Row :=
  match s.taskIdxs.getLast? with
  | none => rows1
  | some tLast =>
    let tIdx := tLast + off
    let tmpl := clearRowTexts (rows1.getD tIdx default)
    rows1.take (tIdx + 1) ++ List.replicate needed tmpl ++ rows1.drop (tIdx + 1)

/-- The writable positions after cloning: the cloned rows join the list
    (with `needed = 0` nothing is added). -/
def writableAll (off : Nat) (s : Sect) (w0 : List Nat) (needed : Nat) :
    List Nat :=
  match s.taskIdxs.getLast? with
  | none => w0
  | some tLast => w0 ++ List.range' (tLast + off + 1) needed

/-- The initial writable positions of one section (over the header-fixed
    rows). -/
def sectW0 (ty : Nat) (rows : List Row) (off : Nat) (s : Sect) : List Nat :=
  baseWritable (headerFixedRows ty rows off s) off s

/-- The clone count of one section. -/
def sectNeeded (sched : List (Text × List Task)) (ty : Nat) (rows : List Row)
    (off : Nat) (s : Sect) : Nat :=
  sectionNeeded (sectionTasks sched s) s (sectW0 ty rows off s)

/-- The rows of one section after the header fix and the cloning. -/
def sectRows2 (sched : List (Text × List Task)) (ty : Nat) (rows : List Row)
    (off : Nat) (s : Sect) : List Row :=
  clonedRows (headerFixedRows ty rows off s) off s (sectNeeded sched ty rows off s)

/-- All writable positions of one section, the cloned rows included. -/
def sectWAll (sched : List (Text × List Task)) (ty : Nat) (rows : List Row)
    (off : Nat) (s : Sect) : List Nat :=
  writableAll off s (sectW0 ty rows off s) (sectNeeded sched ty rows off s)

/-- Pass 2 on one section, carrying the live row list and the accumulated
    insertion offset. -/
def processSection (sched : List (Text × List Task)) (ty : Nat)
    (st : List Row × Nat) (s : Sect) : List Row × Nat :=
  (writeAt (fun i => fillRowStep (sectionTasks sched s) i)
      (sectWAll sched ty st.1 st.2 s) 0 (sectRows2 sched ty st.1 st.2 s),
   st.2 + sectNeeded sched ty st.1 st.2 s)

/-- Model of `_fill_schedule_tbl(tbl, schedule_data, total_years)`: classify, then
    process each section in order.  The function never touches `@rowCnt` or
    `sz/@height`. -/
def fillScheduleTbl (t : Table) (sched : List (Text × List Task)) (ty : Nat) :
    Table :=
  { t with rows := ((collectSections ty t).foldl (processSection sched ty)
      (t.rows, 0)).1 }

/-! ## Derived predicates and specification-side definitions -/

/-- Number of `hp:t` nodes of a paragraph (direct or inside embedded
    tables). -/
def tNodeCount (p : Para) : Nat := (paraTNodes p).length

/-- A paragraph with no embedded table and at most one `hp:t` node — the
    shape `set_para_text` can fully overwrite. -/
def simplePara (p : Para) : Bool :=
  p.runs.all (fun r => r.tbl == none) && decide (tNodeCount p ≤ 1)

/-- A cell with at most one paragraph, that paragraph simple — the shape
    `set_cell_text` can fully overwrite. -/
def simpleCell (c : Cell) : Bool :=
  decide (c.paras.length ≤ 1) && c.paras.all simplePara

/-- Specification side of the `< 3`-years behaviour: every anchor-text
    paragraph is rewritten in place and nothing else changes. -/
def rewriteIfTarget (target newText : Text) (p : Para) : Para :=
  if paraText p == target then setParaText p newText else p

/-- Consistency of the redundant row addresses from position `i` on. -/
def rowAddrOkGo (i : Nat) : List Row → Bool
  | [] => true
  | r :: rest =>
    r.cells.all (fun c => c.rowAddr.all (· == i)) && rowAddrOkGo (i + 1) rest

/-- Every cell's `rowAddr` (where present) equals its row's zero-based
    position among the table's direct rows. -/
def rowAddrOk (t : Table) : Bool := rowAddrOkGo 0 t.rows

/-! ## Concrete inputs for the witnesses and counterexamples -/

/-- A one-run paragraph with the given text. -/
def mkPara (s : Text) : Para := ⟨[⟨some s, none⟩], false⟩

/-- A one-paragraph cell with the given text, row address and height. -/
def mkCell (s : Text) (a : Option Nat) (h : Option Int) : Cell :=
  ⟨[mkPara s], a, h⟩

/-- Schedule table for C1: a `2차 년도` header row and one task row. -/
def c1Tbl : Table :=
  ⟨[⟨[mkCell "2차 년도".toList none none]⟩,
    ⟨[mkCell "old".toList (some 1) (some 100)]⟩], 2, some 100⟩

/-- Two year-2 entries, one more than the table has writable rows. -/
def c1Sched : List (Text × List Task) :=
  [("year2".toList, [⟨"t1".toList, "r1".toList⟩, ⟨"t2".toList, "r2".toList⟩])]

/-- Schedule table for C2 (same shape as C1's). -/
def c2Tbl : Table :=
  ⟨[⟨[mkCell "2차 년도".toList none none]⟩,
    ⟨[mkCell "old".toList (some 1) (some 100)]⟩], 2, some 100⟩

/-- Two year-2 entries for C2. -/
def c2Sched : List (Text × List Task) :=
  [("year2".toList, [⟨"t1".toList, "r1".toList⟩, ⟨"t2".toList, "r2".toList⟩])]

/-- Inner and outer tables for the C2 witness. -/
def c2Inner : Table := ⟨[⟨[mkCell "a".toList none (some 30)]⟩,
  ⟨[mkCell "b".toList none (some 40)]⟩], 2, some 50⟩

def c2Outer : Table := ⟨[⟨[mkCell "w".toList none (some 50)]⟩], 1, some 60⟩

/-- Schedule table for C3: the year-2 task row holds template text. -/
def c3Tbl : Table :=
  ⟨[⟨[mkCell "2차 년도".toList none none]⟩,
    ⟨[mkCell "KEEP".toList none none]⟩], 2, none⟩

/-- Document and data for the C3 witness: two year blocks, each with a main
    label anchor; the data supplies content for the year-1 key only, so the
    year-2 anchor's key is absent while another key holds content. -/
def c3Doc : List Para :=
  [mkPara "가. 연구개발 목표".toList, mkPara "□ 1차년도".toList,
   mkPara "○ (주관연구개발과제):".toList, mkPara "□ 2차년도".toList,
   mkPara "○ (주관연구개발과제):".toList]

def c3Data : List (Text × Text) := [("year1_main".toList, "FILLED".toList)]

/-- Rows for the C4 witness: a header and two filled task rows. -/
def c4Rows : List Row :=
  [⟨[mkCell "2차 년도".toList none none]⟩,
   ⟨[mkCell "t-a".toList none none, mkCell "r-a".toList none none]⟩,
   ⟨[mkCell "t-b".toList none none, mkCell "r-b".toList none none]⟩]

/-- Year-2 section over `c4Rows`. -/
def c4Sect : Sect := ⟨"year2".toList, 0, [1, 2]⟩

/-- Input supplying zero entries for year 2. -/
def c4Sched : List (Text × List Task) := [("year2".toList, [])]

/-- Lists for the C5 witness. -/
def c5Pre : List Para := [mkPara "intro".toList]

def c5Anchor : Para := mkPara "□ N차년도(N단계) 목표:".toList

def c5CAnchor : Para := mkPara "□ N차년도(N단계)".toList

def c5Body : List Para := [mkPara "○ body".toList]

def c5Stop : Para := mkPara "□ 1차년도".toList

/-- Schedule table for C6: a year header followed by a 12-cell row in which
    only the first cell holds a (digit) text. -/
def c6Tbl : Table :=
  ⟨[⟨[mkCell "2차 년도".toList none none]⟩,
    ⟨mkCell "1".toList none none
      :: List.replicate 11 (mkCell "x".toList none none)⟩], 2, none⟩

/-- Document for the C8 counterexample: a well-formed goal anchor followed
    by a blank separator and a second paragraph whose anchor text is split
    over three `hp:t` runs so that the final `N차년도`/`N단계` sweep cannot
    see the patterns inside any single text node. -/
def c8SplitAnchor : Para :=
  ⟨[⟨some "□ N".toList, none⟩, ⟨some "차년도(N".toList, none⟩,
    ⟨some "단계) 목표:".toList, none⟩], false⟩

def c8Doc : List Para :=
  [mkPara "□ N차년도(N단계) 목표:".toList, mkPara [], c8SplitAnchor]

/-- Document for the C8 witness: every paragraph carries at most one text
    node. -/
def c8WDoc : List Para :=
  [mkPara "□ N차년도(N단계) 목표:".toList, mkPara [], mkPara "tail".toList]

/-- Paragraph for the C9 counterexample: two text-bearing runs, the second
    bearing the empty text. -/
def c9Para : Para :=
  ⟨[⟨some "a".toList, none⟩, ⟨some [], none⟩], false⟩

/-- Sibling list for the C10 witness: the label paragraph, 19 unrelated
    following siblings, and a detail line just outside the window. -/
def c10Parent : List Para :=
  mkPara "○ (주관연구개발과제):".toList
    :: List.replicate 19 (mkPara "filler".toList)
    ++ [mkPara "- 연구개발 내용 1".toList]

/-! # Theorems -/

/-! ## Bookkeeping of the template expansion (C1, C2) -/

theorem recalcHeights_rows (t : Table) (o : Option Table) :
    (recalcHeights t o).1.rows = t.rows ∧ (recalcHeights t o).1.rowCnt = t.rowCnt := by
  obtain ⟨rs, rc, sz⟩ := t
  cases sz with
  | none => exact ⟨rfl, rfl⟩
  | some hi =>
    cases o with
    | none => exact ⟨rfl, rfl⟩
    | some ot =>
      obtain ⟨ors, orc, osz⟩ := ot
      cases osz with
      | none => exact ⟨rfl, rfl⟩
      | some ho => exact ⟨rfl, rfl⟩

theorem renumGo_length (l : List Row) (i : Nat) :
    (renumGo i l).length = l.length := by
  induction l generalizing i with
  | nil => rfl
  | cons r rest ih => simp [renumGo, ih]

theorem rowAddrOkGo_renumGo (l : List Row) (i : Nat) :
    rowAddrOkGo i (renumGo i l) = true := by
  induction l generalizing i with
  | nil => rfl
  | cons r rest ih =>
    simp only [renumGo, rowAddrOkGo, Bool.and_eq_true]
    refine ⟨?_, ih (i + 1)⟩
    simp only [List.all_map, List.all_eq_true]
    intro c _
    cases h : c.rowAddr with
    | none => simp [h]
    | some a => simp [h]

/-- C1 (amended): the one-time template pre-expansion
    (`expand_template.py`) always performs the post-growth bookkeeping:
    after its steps the table's declared row-count equals the number of its
    direct rows and every cell's row-address equals its row's zero-based
    position.  (The runtime row growth in `_fill_schedule_tbl` performs no
    such bookkeeping; see the counterexample.) -/
theorem c1_thm (inner : Table) (outer : Option Table) :
    (templateBookkeeping inner outer).1.rowCnt
        = (templateBookkeeping inner outer).1.rows.length ∧
    rowAddrOk (templateBookkeeping inner outer).1 = true := by
  unfold templateBookkeeping
  obtain ⟨h1, h2⟩ := recalcHeights_rows
    (renumberRowAddrs { inner with rowCnt := inner.rows.length }) outer
  rw [rowAddrOk, h1, h2]
  unfold renumberRowAddrs
  exact ⟨by simp [renumGo_length], rowAddrOkGo_renumGo inner.rows 0⟩

/-- C1 (counterexample): the row growth performed by `_fill_schedule_tbl`
    is not followed by any bookkeeping: growing a 2-row schedule table to 3
    rows leaves the declared row-count at 2 and leaves the cloned row's cell
    carrying the template row's address 1 although it sits at position 2. -/
theorem c1_counterexample :
    (fillScheduleTbl c1Tbl c1Sched 2).rows.length = 3 ∧
    (fillScheduleTbl c1Tbl c1Sched 2).rowCnt = 2 ∧
    (((fillScheduleTbl c1Tbl c1Sched 2).rows.getD 2 default).cells.getD 0
        default).rowAddr = some 1 := by
  decide

/-- C2 (amended): `recalc_heights` (run by the template pre-expansion after
    its row growth) makes the inner table's declared height the sum over its
    direct rows of the first cell's height, and mirrors exactly that delta
    into the outer wrapper table's declared height.  (The runtime row growth
    in `_fill_schedule_tbl` recomputes no heights; see the counterexample.) -/
theorem c2_thm (inner o : Table) (hi ho : Int)
    (h1 : inner.szHeight = some hi) (h2 : o.szHeight = some ho) :
    (recalcHeights inner (some o)).1.szHeight = some (sumRowHeights inner) ∧
    (recalcHeights inner (some o)).2
      = some { o with szHeight := some (ho + (sumRowHeights inner - hi)) } := by
  obtain ⟨rs, rc, sz⟩ := inner
  obtain ⟨ors, orc, osz⟩ := o
  simp only at h1 h2
  subst h1; subst h2
  exact ⟨rfl, rfl⟩

/-- C2 (witness). -/
theorem c2_witness :
    (recalcHeights c2Inner (some c2Outer)).1.szHeight = some (sumRowHeights c2Inner) ∧
    (recalcHeights c2Inner (some c2Outer)).2
      = some { c2Outer with szHeight := some (60 + (sumRowHeights c2Inner - 50)) } :=
  c2_thm c2Inner c2Outer 50 60 (by decide) (by decide)

/-- C2 (counterexample): `_fill_schedule_tbl` grows the 2-row table to 3
    rows, raising the sum of first-cell heights to 200, while the declared
    height of the (inner) data table stays at its old value 100 — so after
    this row growth the declared height no longer equals the sum and no
    delta is mirrored anywhere. -/
theorem c2_counterexample :
    (fillScheduleTbl c2Tbl c2Sched 2).rows.length = 3 ∧
    (fillScheduleTbl c2Tbl c2Sched 2).szHeight = some 100 ∧
    sumRowHeights (fillScheduleTbl c2Tbl c2Sched 2) = 200 := by
  decide

/-- C6 (evaluation at the failing input): in the schedule-row
    classification a 12-cell row in which only one cell holds an all-digit
    text (the others hold `x`) is skipped as a month-number header row —
    `collectSections` returns the year-2 section with no task rows — even
    though the row is not composed entirely of digit cells. -/
theorem c6_thm :
    collectSections 2 c6Tbl = [⟨"year2".toList, 0, []⟩] ∧
    ((c6Tbl.rows.getD 1 default).cells.all (fun c => isDigitStr (cellText c)))
      = false := by
  decide

/-! ## Missing-data handling (C3) -/

theorem alookup_mem {α : Type} (m : List (Text × α)) (k : Text) (v : α)
    (h : alookup m k = some v) : ∃ k', (k', v) ∈ m := by
  induction m with
  | nil => simp [alookup] at h
  | cons e rest ih =>
    unfold alookup at h
    by_cases he : e.1 == k
    · rw [if_pos he] at h
      refine ⟨e.1, ?_⟩
      obtain rfl : e.2 = v := by injection h
      exact List.mem_cons_self _ _
    · rw [if_neg he] at h
      obtain ⟨k', hk⟩ := ih h
      exact ⟨k', List.mem_cons_of_mem _ hk⟩

theorem fygRewrite_id (data : List (Text × Text))
    (h : ∀ k v, (k, v) ∈ data → v = [])
    (ss : Bool) (yi : Nat) (label role : Text) (p : Para) :
    fygRewrite data ss yi label role p = p := by
  unfold fygRewrite
  cases ss with
  | false => rfl
  | true =>
    simp only [if_true]
    cases hl : alookup data (yearRoleKey yi role) with
    | none => rfl
    | some v =>
      obtain ⟨k', hk⟩ := alookup_mem data _ v hl
      have hv : v = [] := h k' v hk
      subst hv
      rfl

theorem fygGo_id (data : List (Text × Text))
    (h : ∀ k v, (k, v) ∈ data → v = []) (gi ci : Option Nat) :
    ∀ (l : List Para) (i : Nat) (ig ss : Bool) (yi : Nat),
      fygGo data gi ci i ig ss yi l = l := by
  intro l
  induction l with
  | nil => intro i ig ss yi; rfl
  | cons p rest ih =>
    intro i ig ss yi
    simp only [fygGo]
    split
    · exact congrArg _ (ih _ _ _ _)
    split
    · rfl
    split
    · exact congrArg _ (ih _ _ _ _)
    split
    · exact congrArg _ (ih _ _ _ _)
    · have hp : (if ss && paraText p == mainLabel then
          fygRewrite data ss yi mainLabel "main".toList p
        else if ss && paraText p == jointLabel then
          fygRewrite data ss yi jointLabel "joint".toList p
        else if ss && paraText p == contractedLabel then
          fygRewrite data ss yi contractedLabel "contracted".toList p
        else p) = p := by
        split
        · exact fygRewrite_id data h ss yi _ _ p
        split
        · exact fygRewrite_id data h ss yi _ _ p
        split
        · exact fygRewrite_id data h ss yi _ _ p
        · rfl
      rw [hp]
      exact congrArg _ (ih _ _ _ _)

theorem fygRewrite_absent (data : List (Text × Text)) (ss : Bool) (yi : Nat)
    (label role : Text) (p : Para)
    (hk : keyHas data (yearRoleKey yi role) = false) :
    fygRewrite data ss yi label role p = p := by
  unfold fygRewrite
  cases ss with
  | false => rfl
  | true =>
    simp only [if_true]
    unfold keyHas at hk
    cases hl : alookup data (yearRoleKey yi role) with
    | none => rfl
    | some v =>
      rw [hl] at hk
      have hk' : (!v.isEmpty) = false := hk
      cases v with
      | nil => rfl
      | cons a as => exact Bool.noConfusion (show true = false from hk')

theorem fygIte_id (data : List (Text × Text)) (ss : Bool) (yi : Nat) (p : Para)
    (label role : Text)
    (hlr : label = mainLabel ∧ role = "main".toList ∨
           label = jointLabel ∧ role = "joint".toList ∨
           label = contractedLabel ∧ role = "contracted".toList)
    (hp : paraText p = label)
    (hk : keyHas data (yearRoleKey yi role) = false) :
    (if ss && (paraText p == mainLabel) then
      fygRewrite data ss yi mainLabel "main".toList p
    else if ss && (paraText p == jointLabel) then
      fygRewrite data ss yi jointLabel "joint".toList p
    else if ss && (paraText p == contractedLabel) then
      fygRewrite data ss yi contractedLabel "contracted".toList p
    else p) = p := by
  rcases hlr with ⟨hl, hr⟩ | ⟨hl, hr⟩ | ⟨hl, hr⟩
  · subst hl; subst hr
    rw [hp]
    cases ss with
    | false => simp
    | true =>
      rw [if_pos (by decide : (true && (mainLabel == mainLabel)) = true)]
      exact fygRewrite_absent data true yi mainLabel "main".toList p hk
  · subst hl; subst hr
    rw [hp]
    cases ss with
    | false => simp
    | true =>
      rw [if_neg (by decide : ¬((true && (jointLabel == mainLabel)) = true)),
        if_pos (by decide : (true && (jointLabel == jointLabel)) = true)]
      exact fygRewrite_absent data true yi jointLabel "joint".toList p hk
  · subst hl; subst hr
    rw [hp]
    cases ss with
    | false => simp
    | true =>
      rw [if_neg (by decide : ¬((true && (contractedLabel == mainLabel)) = true)),
        if_neg (by decide : ¬((true && (contractedLabel == jointLabel)) = true)),
        if_pos (by decide :
          (true && (contractedLabel == contractedLabel)) = true)]
      exact fygRewrite_absent data true yi contractedLabel "contracted".toList p hk

theorem fygGo_getD (data : List (Text × Text)) (role label : Text)
    (hlr : label = mainLabel ∧ role = "main".toList ∨
           label = jointLabel ∧ role = "joint".toList ∨
           label = contractedLabel ∧ role = "contracted".toList) :
    ∀ (l : List Para) (gi ci : Option Nat) (i : Nat) (ig ss : Bool)
      (yi j : Nat),
      paraText (l.getD j default) = label →
      keyHas data (yearRoleKey (fygStateAt gi ci i ig ss yi l j).2.2 role)
        = false →
      (fygGo data gi ci i ig ss yi l).getD j default = l.getD j default := by
  intro l
  induction l with
  | nil => intro gi ci i ig ss yi j _ _; rfl
  | cons p rest ih =>
    intro gi ci i ig ss yi j hp hk
    cases j with
    | zero =>
      have hp0 : paraText p = label := hp
      have hk0 : keyHas data (yearRoleKey yi role) = false := hk
      simp only [fygGo]
      by_cases h1 : (gi == some i) = true
      · rw [if_pos h1]; simp only [List.getD_cons_zero]
      · rw [if_neg h1]
        by_cases h2 : (ci == some i) = true
        · rw [if_pos h2]
        · rw [if_neg h2]
          by_cases h3 : (!ig) = true
          · rw [if_pos h3]; simp only [List.getD_cons_zero]
          · rw [if_neg h3]
            by_cases h4 : squareYear (paraText p) = true
            · rw [if_pos h4]; simp only [List.getD_cons_zero]
            · rw [if_neg h4]
              simp only [List.getD_cons_zero]
              exact fygIte_id data ss yi p label role hlr hp0 hk0
    | succ j' =>
      have hp1 : paraText (rest.getD j' default) = label := hp
      simp only [fygGo]
      simp only [fygStateAt] at hk
      by_cases h1 : (gi == some i) = true
      · rw [if_pos h1] at hk ⊢
        rw [List.getD_cons_succ, List.getD_cons_succ]
        exact ih gi ci (i + 1) true ss yi j' hp1 hk
      · rw [if_neg h1] at hk ⊢
        by_cases h2 : (ci == some i) = true
        · rw [if_pos h2]
        · rw [if_neg h2] at hk ⊢
          by_cases h3 : (!ig) = true
          · rw [if_pos h3] at hk ⊢
            rw [List.getD_cons_succ, List.getD_cons_succ]
            exact ih gi ci (i + 1) ig ss yi j' hp1 hk
          · rw [if_neg h3] at hk ⊢
            by_cases h4 : squareYear (paraText p) = true
            · rw [if_pos h4] at hk ⊢
              rw [List.getD_cons_succ, List.getD_cons_succ]
              exact ih gi ci (i + 1) ig true (yi + 1) j' hp1 hk
            · rw [if_neg h4] at hk ⊢
              rw [List.getD_cons_succ, List.getD_cons_succ]
              exact ih gi ci (i + 1) ig ss yi j' hp1 hk

/-- C3 (amended): for a yearly-goal label anchor the claim holds anchor by
    anchor — whenever the single input key governing that anchor
    (`year{k}_{role}` for the year index `k` in effect at the anchor's
    position) is absent, or present with an empty value, that paragraph is
    left untouched in place, no matter what content any other key holds;
    but for the schedule year sections the claim fails: an absent year key
    clears that year's writable task/result cells instead of leaving the
    template text in place (see the counterexample). -/
theorem c3_thm (doc : List Para) (data : List (Text × Text)) (j : Nat)
    (label role : Text)
    (hlr : label = mainLabel ∧ role = "main".toList ∨
           label = jointLabel ∧ role = "joint".toList ∨
           label = contractedLabel ∧ role = "contracted".toList)
    (hp : paraText (doc.getD j default) = label)
    (hk : keyHas data (yearRoleKey (fygYearIdxAt doc j) role) = false) :
    (fillYearlyGoals doc data).getD j default = doc.getD j default := by
  simp only [fillYearlyGoals]
  simp only [fygYearIdxAt] at hk
  exact fygGo_getD data role label hlr doc _ _ 0 false false 0 j hp hk

/-- C3 (witness): the year-1 key holds content and its anchor is rewritten,
    while the year-2 anchor, whose governing key `year2_main` is absent
    from the data, is left untouched in place. -/
theorem c3_witness :
    (fillYearlyGoals c3Doc c3Data).getD 2 default ≠ c3Doc.getD 2 default ∧
    (fillYearlyGoals c3Doc c3Data).getD 4 default = c3Doc.getD 4 default :=
  ⟨by decide,
   c3_thm c3Doc c3Data 4 mainLabel "main".toList (Or.inl ⟨rfl, rfl⟩)
     (by decide) (by decide)⟩

/-- C3 (counterexample): the schedule table's year-2 section is a detected
    anchor; with the `year2` input key absent the existing template text
    `KEEP` in its writable row is not left untouched — it is cleared to the
    empty text. -/
theorem c3_counterexample :
    cellText (((fillScheduleTbl c3Tbl [] 2).rows.getD 1 default).cells.getD 0
        default) = [] ∧
    cellText ((c3Tbl.rows.getD 1 default).cells.getD 0 default)
      = "KEEP".toList := by
  decide

/-! ## Detail-line window (C10) -/

theorem collectDetail_nil (l : List Para) :
    ∀ (fuel pos : Nat) (has : Bool),
      (∀ p ∈ l.take fuel, isPre detailMark (paraText p) = false) →
      collectDetail fuel pos has l = [] := by
  induction l with
  | nil => intro fuel pos has _; cases fuel <;> rfl
  | cons q rest ih =>
    intro fuel pos has h
    cases fuel with
    | zero => rfl
    | succ fuel' =>
      have hq : isPre detailMark (paraText q) = false :=
        h q (by simp [List.take_succ_cons])
      simp only [collectDetail]
      rw [hq]
      simp only [Bool.false_eq_true, if_false]
      split
      · rfl
      split
      · rfl
      · exact ih fuel' (pos + 1) has (fun p hp =>
          h p (by rw [List.take_succ_cons]; exact List.mem_cons_of_mem _ hp))

/-- C10 (confirmed): the detail-line search of `_fill_org_content_lines`
    inspects only the 19 sibling paragraphs immediately after the label
    paragraph; when none of them begins with the detail-line marker the
    sibling list is returned unchanged — the input lines are silently
    dropped, with no cloning and no writing (a detail line sitting just
    outside the window, as in the witness, is never found). -/
theorem c10_thm (parent : List Para) (idx : Nat) (items : List Text)
    (h : ∀ p ∈ (parent.drop (idx + 1)).take 19,
        isPre detailMark (paraText p) = false) :
    fillOrgContentLines parent idx items = parent := by
  simp only [fillOrgContentLines, fillOrgContentAfter]
  cases hi : items.isEmpty with
  | true => simp [List.take_append_drop]
  | false =>
    rw [collectDetail_nil _ 19 0 false h]
    simp [List.take_append_drop]

/-- C10 (witness): one input line for a label whose only detail line is the
    20th following sibling — outside the window — is dropped. -/
theorem c10_witness : fillOrgContentLines c10Parent 0 ["x".toList] = c10Parent :=
  c10_thm c10Parent 0 ["x".toList] (by decide)

/-! ## Paragraph text rewriting (C9) -/

theorem catTexts_cons (x : Text) (l : List Text) :
    catTexts (x :: l) = x ++ catTexts l := rfl

theorem catTexts_append (u v : List Text) :
    catTexts (u ++ v) = catTexts u ++ catTexts v := by
  induction u with
  | nil => rfl
  | cons x xs ih => simp [catTexts_cons, ih, List.append_assoc]

theorem paraTNodes_cons (r : Run) (rs : List Run) (l : Bool) :
    paraTNodes ⟨r :: rs, l⟩ = runTexts r ++ paraTNodes ⟨rs, l⟩ := rfl

theorem runTexts_none (q : Run) (ht : q.t = none) (htb : q.tbl = none) :
    runTexts q = [] := by simp [runTexts, ht, htb]

theorem paraTNodes_nil_runs (a : List Run) (l : List Run) (lin : Bool)
    (ha : ∀ q ∈ a, runTexts q = []) :
    paraTNodes ⟨a ++ l, lin⟩ = paraTNodes ⟨l, lin⟩ := by
  induction a with
  | nil => rfl
  | cons q rest ih =>
    have hq := ha q (List.mem_cons_self _ _)
    rw [List.cons_append, paraTNodes_cons, hq, List.nil_append]
    exact ih (fun p hp => ha p (List.mem_cons_of_mem _ hp))

theorem rawPara_cons (r : Run) (rs : List Run) (lin : Bool) :
    rawPara ⟨r :: rs, lin⟩ = catTexts (runTexts r) ++ rawPara ⟨rs, lin⟩ := by
  simp only [rawPara, paraTNodes_cons, catTexts_append]

theorem filter_tbl_none (l : List Run) (h : ∀ q ∈ l, q.tbl = none) :
    l.filter (fun r => r.tbl = none) = l := by
  induction l with
  | nil => rfl
  | cons q rest ih =>
    have hq : q.tbl = none := h q (List.mem_cons_self _ _)
    simp only [List.filter_cons]
    rw [if_pos (by simp [hq])]
    rw [ih (fun p hp => h p (List.mem_cons_of_mem _ hp))]

theorem setFirstT_skip (a : List Run) (r : Run) (b : List Run) (x s : Text)
    (ha : ∀ q ∈ a, q.t = none) (hr : r.t = some x) :
    setFirstT (a ++ r :: b) s = some (a ++ { r with t := some s } :: b) := by
  induction a with
  | nil => simp [setFirstT, hr]
  | cons q rest ih =>
    have hq : q.t = none := ha q (List.mem_cons_self _ _)
    simp [setFirstT, hq, ih (fun p hp => ha p (List.mem_cons_of_mem _ hp))]

/-- C9 (amended): on a paragraph whose runs hold no embedded table,
    `set_para_text` overwrites the text of only the first text-bearing run
    (runs before it and after it are kept unchanged, in place), the derived
    text becomes the requested text followed by the texts of the later runs,
    and it equals the (trimmed) requested text whenever the paragraph
    carried at most one text node.  (As stated, with its "only if"
    direction, the claim fails: see the counterexample, where a second
    text-bearing run carries the empty text.) -/
theorem c9_thm (a b : List Run) (r : Run) (x s : Text) (lin : Bool)
    (htbl : ∀ q ∈ a ++ r :: b, q.tbl = none)
    (ha : ∀ q ∈ a, q.t = none)
    (hr : r.t = some x) :
    setParaText ⟨a ++ r :: b, lin⟩ s = ⟨a ++ { r with t := some s } :: b, false⟩ ∧
    rawPara (setParaText ⟨a ++ r :: b, lin⟩ s) = s ++ rawPara ⟨b, false⟩ ∧
    (tNodeCount ⟨a ++ r :: b, lin⟩ ≤ 1 →
      paraText (setParaText ⟨a ++ r :: b, lin⟩ s) = trim s) := by
  have hrtbl : r.tbl = none :=
    htbl r (List.mem_append_right _ (List.mem_cons_self _ _))
  have hset : setParaText ⟨a ++ r :: b, lin⟩ s
      = ⟨a ++ { r with t := some s } :: b, false⟩ := by
    simp only [setParaText]
    rw [filter_tbl_none _ htbl, setFirstT_skip a r b x s ha hr]
  have haz : ∀ q ∈ a, runTexts q = [] := fun q hq =>
    runTexts_none q (ha q hq) (htbl q (List.mem_append_left _ hq))
  have hraw : rawPara (setParaText ⟨a ++ r :: b, lin⟩ s) = s ++ rawPara ⟨b, false⟩ := by
    rw [hset]
    show catTexts (paraTNodes ⟨a ++ { r with t := some s } :: b, false⟩)
      = s ++ rawPara ⟨b, false⟩
    rw [paraTNodes_nil_runs a _ _ haz, paraTNodes_cons]
    rw [catTexts_append]
    simp [runTexts, hrtbl, catTexts_cons, rawPara, catTexts]
  refine ⟨hset, hraw, ?_⟩
  intro hcount
  have hlen : tNodeCount ⟨a ++ r :: b, lin⟩ = 1 + (paraTNodes ⟨b, lin⟩).length := by
    unfold tNodeCount
    rw [paraTNodes_nil_runs a _ _ haz, paraTNodes_cons]
    simp [runTexts, hr, hrtbl]
    omega
  have hb : paraTNodes ⟨b, lin⟩ = [] := by
    rw [hlen] at hcount
    exact List.length_eq_zero.mp (by omega)
  have hb' : rawPara ⟨b, false⟩ = [] := by
    show catTexts (paraTNodes ⟨b, false⟩) = []
    have : paraTNodes ⟨b, false⟩ = paraTNodes ⟨b, lin⟩ := rfl
    rw [this, hb]
    rfl
  unfold paraText
  rw [hraw, hb', List.append_nil]

/-- C9 (witness). -/
theorem c9_witness :
    setParaText ⟨[⟨none, none⟩] ++ ⟨some "x".toList, none⟩ :: [], false⟩ "hello".toList
      = ⟨[⟨none, none⟩] ++ ⟨some "hello".toList, none⟩ :: [], false⟩ ∧
    rawPara (setParaText ⟨[⟨none, none⟩] ++ ⟨some "x".toList, none⟩ :: [], false⟩
        "hello".toList) = "hello".toList ++ rawPara ⟨[], false⟩ ∧
    (tNodeCount ⟨[⟨none, none⟩] ++ ⟨some "x".toList, none⟩ :: [], false⟩ ≤ 1 →
      paraText (setParaText ⟨[⟨none, none⟩] ++ ⟨some "x".toList, none⟩ :: [], false⟩
        "hello".toList) = trim "hello".toList) :=
  c9_thm [⟨none, none⟩] [] ⟨some "x".toList, none⟩ "x".toList "hello".toList false
    (by decide) (by decide) (by decide)

/-- C9 (counterexample): a paragraph with two text-bearing runs — the
    second bearing the empty text — still derives exactly the requested
    text after `set_para_text`, so "the derived text equals the requested
    text only if the paragraph had at most one text-bearing run" is false. -/
theorem c9_counterexample :
    paraText (setParaText c9Para "b".toList) = "b".toList ∧
    (c9Para.runs.filter (fun r => r.t.isSome)).length = 2 := by
  decide

/-! ## Year-block expansion (C5) -/

theorem expandScan_lt3 (b : Bool) (tgt nt : Text) (ty : Nat) (hty : ty < 3)
    (doc : List Para) :
    expandScan b tgt nt ty doc = doc.map (rewriteIfTarget tgt nt) := by
  induction doc with
  | nil => rfl
  | cons p rest ih =>
    simp only [expandScan, List.map_cons, rewriteIfTarget]
    by_cases hp : paraText p == tgt
    · rw [if_pos hp, if_pos hty, ih, if_pos hp]
    · rw [if_neg hp, if_neg hp, ih]

theorem expandScan_skip (b : Bool) (tgt nt : Text) (ty : Nat)
    (pre d : List Para) (hpre : ∀ p ∈ pre, paraText p ≠ tgt) :
    expandScan b tgt nt ty (pre ++ d) = pre ++ expandScan b tgt nt ty d := by
  induction pre with
  | nil => rfl
  | cons p rest ih =>
    have hp : ¬ (paraText p == tgt) = true := by
      simp only [beq_iff_eq]
      exact hpre p (List.mem_cons_self _ _)
    rw [List.cons_append, List.cons_append]
    simp only [expandScan]
    rw [if_neg hp, ih (fun q hq => hpre q (List.mem_cons_of_mem _ hq))]

theorem splitBlock_spec (b : Bool) (body rest : List Para) (stop : Para)
    (hbody : ∀ p ∈ body, squareYear (paraText p) = false ∧ paraText p ≠ [])
    (hstop : squareYear (paraText stop) = true) :
    splitBlock b (body ++ stop :: rest) = (body, stop :: rest) := by
  induction body with
  | nil =>
    simp only [List.nil_append, splitBlock]
    rw [if_pos hstop]
  | cons q qs ih =>
    obtain ⟨h1, h2⟩ := hbody q (List.mem_cons_self _ _)
    have h2' : ¬ (b && paraText q == []) = true := by
      simp only [Bool.and_eq_true, beq_iff_eq]
      rintro ⟨-, h⟩
      exact h2 h
    rw [List.cons_append]
    simp only [splitBlock]
    rw [if_neg (by simp [h1]), if_neg h2',
      ih (fun p hp => hbody p (List.mem_cons_of_mem _ hp))]

theorem expandScan_decomp (b : Bool) (tgt nt : Text) (ty : Nat) (hty : 3 ≤ ty)
    (pre body rest : List Para) (anchor stop : Para)
    (hpre : ∀ p ∈ pre, paraText p ≠ tgt)
    (hanc : paraText anchor = tgt)
    (hbody : ∀ p ∈ body, squareYear (paraText p) = false ∧ paraText p ≠ [])
    (hstop : squareYear (paraText stop) = true) :
    expandScan b tgt nt ty (pre ++ anchor :: (body ++ stop :: rest))
      = pre ++ setParaText anchor nt :: body
          ++ (List.range' 3 (ty - 2)).foldr
              (fun yr acc =>
                (setParaText anchor nt :: body).map (cloneYear yr) ++ acc) []
          ++ stop :: rest := by
  rw [expandScan_skip b tgt nt ty pre _ hpre]
  simp only [expandScan]
  rw [if_pos (by simp [hanc]), if_neg (by omega),
    splitBlock_spec b body rest stop hbody hstop]
  simp [List.append_assoc]

/-- C5 (confirmed): with a period count below 3 both year-block expanders
    only rewrite the anchor label text of every matching paragraph and
    insert nothing; with period count 5 exactly three additional copies of
    the anchor block (for periods 3, 4 and 5, in that order) are inserted
    right after the original block, each copy preserving the relative order
    of the duplicated paragraphs and standing immediately after the
    previously inserted copy. -/
theorem c5_thm :
    (∀ (doc : List Para) (ty st : Nat), ty < 3 →
        expandGoalYearBlocks doc ty st
            = doc.map (rewriteIfTarget goalTarget (goalNew st)) ∧
        expandContentYearBlocks doc ty st
            = doc.map (rewriteIfTarget contentTarget (contentNew st))) ∧
    (∀ (pre body rest : List Para) (anchor stop : Para) (st : Nat),
        (∀ p ∈ pre, paraText p ≠ goalTarget) →
        paraText anchor = goalTarget →
        (∀ p ∈ body, squareYear (paraText p) = false ∧ paraText p ≠ []) →
        squareYear (paraText stop) = true →
        expandGoalYearBlocks (pre ++ anchor :: (body ++ stop :: rest)) 5 st
          = pre ++ setParaText anchor (goalNew st) :: body
              ++ (setParaText anchor (goalNew st) :: body).map (cloneYear 3)
              ++ (setParaText anchor (goalNew st) :: body).map (cloneYear 4)
              ++ (setParaText anchor (goalNew st) :: body).map (cloneYear 5)
              ++ stop :: rest) ∧
    (∀ (pre body rest : List Para) (anchor stop : Para) (st : Nat),
        (∀ p ∈ pre, paraText p ≠ contentTarget) →
        paraText anchor = contentTarget →
        (∀ p ∈ body, squareYear (paraText p) = false ∧ paraText p ≠ []) →
        squareYear (paraText stop) = true →
        expandContentYearBlocks (pre ++ anchor :: (body ++ stop :: rest)) 5 st
          = pre ++ setParaText anchor (contentNew st) :: body
              ++ (setParaText anchor (contentNew st) :: body).map (cloneYear 3)
              ++ (setParaText anchor (contentNew st) :: body).map (cloneYear 4)
              ++ (setParaText anchor (contentNew st) :: body).map (cloneYear 5)
              ++ stop :: rest) := by
  refine ⟨?_, ?_, ?_⟩
  · intro doc ty st hty
    exact ⟨expandScan_lt3 true goalTarget (goalNew st) ty hty doc,
      expandScan_lt3 false contentTarget (contentNew st) ty hty doc⟩
  · intro pre body rest anchor stop st hpre hanc hbody hstop
    rw [expandGoalYearBlocks,
      expandScan_decomp true goalTarget (goalNew st) 5 (by omega)
        pre body rest anchor stop hpre hanc hbody hstop]
    have hr : List.range' 3 (5 - 2) = [3, 4, 5] := rfl
    rw [hr]
    simp [List.append_assoc]
  · intro pre body rest anchor stop st hpre hanc hbody hstop
    rw [expandContentYearBlocks,
      expandScan_decomp false contentTarget (contentNew st) 5 (by omega)
        pre body rest anchor stop hpre hanc hbody hstop]
    have hr : List.range' 3 (5 - 2) = [3, 4, 5] := rfl
    rw [hr]
    simp [List.append_assoc]

/-- C5 (witness). -/
theorem c5_witness :
    expandGoalYearBlocks (c5Pre ++ c5Anchor :: (c5Body ++ c5Stop :: [])) 5 1
      = c5Pre ++ setParaText c5Anchor (goalNew 1) :: c5Body
          ++ (setParaText c5Anchor (goalNew 1) :: c5Body).map (cloneYear 3)
          ++ (setParaText c5Anchor (goalNew 1) :: c5Body).map (cloneYear 4)
          ++ (setParaText c5Anchor (goalNew 1) :: c5Body).map (cloneYear 5)
          ++ c5Stop :: [] ∧
    expandContentYearBlocks (c5Pre ++ c5CAnchor :: (c5Body ++ c5Stop :: [])) 5 1
      = c5Pre ++ setParaText c5CAnchor (contentNew 1) :: c5Body
          ++ (setParaText c5CAnchor (contentNew 1) :: c5Body).map (cloneYear 3)
          ++ (setParaText c5CAnchor (contentNew 1) :: c5Body).map (cloneYear 4)
          ++ (setParaText c5CAnchor (contentNew 1) :: c5Body).map (cloneYear 5)
          ++ c5Stop :: [] ∧
    expandGoalYearBlocks c5Pre 2 1 = c5Pre.map (rewriteIfTarget goalTarget (goalNew 1)) :=
  ⟨c5_thm.2.1 c5Pre c5Body [] c5Anchor c5Stop 1
      (by decide) (by decide) (by decide) (by decide),
   c5_thm.2.2 c5Pre c5Body [] c5CAnchor c5Stop 1
      (by decide) (by decide) (by decide) (by decide),
   (c5_thm.1 c5Pre 2 1 (by decide)).1⟩

/-! ## Placeholder filling (C7) -/

theorem getD_tail {α : Type} (c : List α) (r : Nat) (d : α) :
    (c.drop 1).getD r d = c.getD (r + 1) d := by
  cases c with
  | nil => rfl
  | cons a as => rfl

theorem replacePlaceholder_cons (d : List Para) (p q : Para) (i : Nat)
    (lines : List Text) :
    replacePlaceholder (p :: d) q (i + 1) lines
      = p :: replacePlaceholder d q i lines := by
  unfold replacePlaceholder
  by_cases hl : lines.isEmpty
  · rw [if_pos hl, if_pos hl]
  · rw [if_neg hl, if_neg hl]
    simp [List.take_succ_cons, List.drop_succ_cons]

theorem fillFromSnap_append (c : List (List Text)) (A B : List (Nat × Nat × Para))
    (doc : List Para) :
    fillFromSnap c (A ++ B) doc = fillFromSnap c B (fillFromSnap c A doc) := by
  induction A generalizing doc with
  | nil => rfl
  | cons e A' ih =>
    obtain ⟨r, i, q⟩ := e
    simp only [List.cons_append, fillFromSnap]
    exact ih _

theorem fillFromSnap_shiftIdx (c : List (List Text)) (T : List (Nat × Nat × Para))
    (p : Para) (d : List Para) :
    fillFromSnap c (T.map (fun e => (e.1, e.2.1 + 1, e.2.2))) (p :: d)
      = p :: fillFromSnap c T d := by
  induction T generalizing d with
  | nil => rfl
  | cons e T' ih =>
    obtain ⟨r, i, q⟩ := e
    simp only [List.map_cons, fillFromSnap]
    by_cases hc : (c.getD r []).isEmpty
    · rw [if_pos hc, if_pos hc]
      exact ih d
    · rw [if_neg hc, if_neg hc, replacePlaceholder_cons]
      exact ih _

theorem fillFromSnap_shiftBoth (c : List (List Text)) (T : List (Nat × Nat × Para))
    (p : Para) (d : List Para) :
    fillFromSnap c (T.map (fun e => (e.1 + 1, e.2.1 + 1, e.2.2))) (p :: d)
      = p :: fillFromSnap (c.drop 1) T d := by
  induction T generalizing d with
  | nil => rfl
  | cons e T' ih =>
    obtain ⟨r, i, q⟩ := e
    simp only [List.map_cons, fillFromSnap]
    rw [getD_tail c r []]
    by_cases hc : (c.getD (r + 1) []).isEmpty
    · rw [if_pos hc, if_pos hc]
      exact ih d
    · rw [if_neg hc, if_neg hc, replacePlaceholder_cons]
      exact ih _

theorem placeholderSnap_shift (l : List Para) (i0 : Nat) :
    placeholderSnap (i0 + 1) l
      = (placeholderSnap i0 l).map (fun e => (e.1 + 1, e.2)) := by
  induction l generalizing i0 with
  | nil => rfl
  | cons p rest ih =>
    simp only [placeholderSnap]
    by_cases hp : paraText p == sentinel
    · rw [if_pos hp, if_pos hp, List.map_cons, ih]
    · rw [if_neg hp, if_neg hp, ih]

theorem rankSnap_shift (S : List (Nat × Para)) (r0 : Nat) :
    rankSnap (r0 + 1) S = (rankSnap r0 S).map (fun e => (e.1 + 1, e.2)) := by
  induction S generalizing r0 with
  | nil => rfl
  | cons e S' ih =>
    obtain ⟨i, q⟩ := e
    simp only [rankSnap, List.map_cons]
    rw [ih]

theorem rankSnap_mapIdx (S : List (Nat × Para)) (r0 : Nat) :
    rankSnap r0 (S.map (fun e => (e.1 + 1, e.2)))
      = (rankSnap r0 S).map (fun e => (e.1, e.2.1 + 1, e.2.2)) := by
  induction S generalizing r0 with
  | nil => rfl
  | cons e S' ih =>
    obtain ⟨i, q⟩ := e
    simp only [List.map_cons, rankSnap]
    rw [ih]

theorem placeholderFillSpec_shift (d : List Para) (c : List (List Text)) (r : Nat) :
    placeholderFillSpec c (r + 1) d = placeholderFillSpec (c.drop 1) r d := by
  induction d generalizing r with
  | nil => rfl
  | cons p rest ih =>
    simp only [placeholderFillSpec]
    by_cases hp : paraText p == sentinel
    · rw [if_pos hp, if_pos hp, getD_tail c r [], ih]
    · rw [if_neg hp, if_neg hp, ih]

/-- C7 (confirmed): the reverse-order placeholder pass of
    `modify_application` refines the left-to-right specification: every
    sentinel paragraph with non-empty mapped content is replaced in place by
    exactly one clone per content line (formatting copied from the
    placeholder, embedded sub-tables stripped, each clone's text set to its
    line, in order) and the original placeholder is removed; every sentinel
    paragraph with empty or absent content is left untouched with its
    sentinel text preserved. -/
theorem c7_thm (doc : List Para) (contents : List (List Text)) :
    fillPlaceholders doc contents = placeholderFillSpec contents 0 doc := by
  induction doc generalizing contents with
  | nil => rfl
  | cons p d ih =>
    unfold fillPlaceholders
    simp only [placeholderSnap, placeholderFillSpec]
    by_cases hp : paraText p == sentinel
    · rw [if_pos hp, if_pos hp]
      rw [placeholderSnap_shift]
      simp only [rankSnap]
      rw [rankSnap_shift, rankSnap_mapIdx]
      have hcomp : ((rankSnap 0 (placeholderSnap 0 d)).map
            (fun e => (e.1, e.2.1 + 1, e.2.2))).map (fun e => (e.1 + 1, e.2))
          = (rankSnap 0 (placeholderSnap 0 d)).map
            (fun e => (e.1 + 1, e.2.1 + 1, e.2.2)) := by
        rw [List.map_map]
        rfl
      rw [hcomp, List.reverse_cons, fillFromSnap_append]
      rw [← List.map_reverse, fillFromSnap_shiftBoth]
      have hih := ih (contents.drop 1)
      unfold fillPlaceholders at hih
      rw [hih, placeholderFillSpec_shift]
      simp only [fillFromSnap]
      by_cases hc : (contents.getD 0 []).isEmpty
      · rw [if_pos hc, if_pos hc]
        rfl
      · rw [if_neg hc, if_neg hc]
        unfold replacePlaceholder
        rw [if_neg hc]
        rfl
    · rw [if_neg hp, if_neg hp]
      rw [placeholderSnap_shift, rankSnap_mapIdx, ← List.map_reverse,
        fillFromSnap_shiftIdx]
      have hih := ih contents
      unfold fillPlaceholders at hih
      rw [hih]

/-! ## Replacement leaves no pattern behind (toolkit for C8) -/

theorem isSub_nil_pat (l : Text) : isSub [] l = true := by
  cases l with
  | nil => rfl
  | cons b bs => simp [isSub, isPre]

theorem isPre_append_right (pat m b : Text) (h : isPre pat m = true) :
    isPre pat (m ++ b) = true := by
  induction pat generalizing m with
  | nil => rfl
  | cons a as ih =>
    cases m with
    | nil => simp [isPre] at h
    | cons c cs =>
      simp only [isPre, Bool.and_eq_true] at h
      simp only [List.cons_append, isPre, Bool.and_eq_true]
      exact ⟨h.1, ih cs h.2⟩

theorem isSub_append_right (pat m b : Text) (h : isSub pat m = true) :
    isSub pat (m ++ b) = true := by
  induction m with
  | nil =>
    simp only [isSub, List.isEmpty_iff] at h
    subst h
    exact isSub_nil_pat b
  | cons c m' ih =>
    simp only [isSub, Bool.or_eq_true] at h
    rcases h with h | h
    · have := isPre_append_right pat (c :: m') b h
      rw [List.cons_append] at this ⊢
      simp only [isSub, Bool.or_eq_true]
      exact Or.inl this
    · rw [List.cons_append]
      simp only [isSub, Bool.or_eq_true]
      exact Or.inr (ih h)

theorem isSub_append_left (pat m a : Text) (h : isSub pat m = true) :
    isSub pat (a ++ m) = true := by
  induction a with
  | nil => exact h
  | cons y a' ih =>
    rw [List.cons_append]
    simp only [isSub, Bool.or_eq_true]
    exact Or.inr ih

theorem isSub_skip (p0 : Char) (pt ys X : Text) (hy : p0 ∉ ys)
    (h : isSub (p0 :: pt) (ys ++ X) = true) : isSub (p0 :: pt) X = true := by
  induction ys with
  | nil => exact h
  | cons y ys' ih =>
    rw [List.cons_append] at h
    simp only [isSub, Bool.or_eq_true] at h
    rcases h with h | h
    · exfalso
      simp only [isPre, Bool.and_eq_true, beq_iff_eq] at h
      exact hy (h.1 ▸ List.mem_cons_self _ _)
    · exact ih (fun hm => hy (List.mem_cons_of_mem _ hm)) h

theorem isSub_drop (pat l : Text) (k : Nat)
    (h : isSub pat (l.drop k) = true) : isSub pat l = true := by
  induction k generalizing l with
  | zero => simpa using h
  | succ k' ih =>
    cases l with
    | nil => simpa using h
    | cons a l' =>
      rw [List.drop_succ_cons] at h
      simp only [isSub, Bool.or_eq_true]
      exact Or.inr (ih l' h)

theorem replGo_auxA (p0 : Char) (pt : Text) (r0 : Char) (rtl : Text)
    (forb : Text) (hr0 : r0 ∉ forb) :
    ∀ (cs : Text) (fuel : Nat) (pt' : Text), pt' ≠ [] → (∀ c ∈ pt', c ∈ forb) →
      isPre pt' (replGo p0 pt (r0 :: rtl) fuel cs) = true → isPre pt' cs = true := by
  intro cs
  induction cs with
  | nil =>
    intro fuel pt' hne _ h
    cases pt' with
    | nil => cases hne rfl
    | cons q qt => simp [replGo, isPre] at h
  | cons c cs' ih =>
    intro fuel pt' hne hmem h
    cases fuel with
    | zero =>
      cases pt' with
      | nil => cases hne rfl
      | cons q qt => simp [replGo, isPre] at h
    | succ fuel' =>
      rw [replGo] at h
      by_cases hm : isPre (p0 :: pt) (c :: cs') = true
      · rw [if_pos hm] at h
        cases pt' with
        | nil => cases hne rfl
        | cons q qt =>
          exfalso
          rw [List.cons_append] at h
          simp only [isPre, Bool.and_eq_true, beq_iff_eq] at h
          exact hr0 (h.1 ▸ hmem q (List.mem_cons_self _ _))
      · rw [if_neg hm] at h
        cases pt' with
        | nil => cases hne rfl
        | cons q qt =>
          simp only [isPre, Bool.and_eq_true] at h ⊢
          refine ⟨h.1, ?_⟩
          cases qt with
          | nil => rfl
          | cons q2 qt' =>
            exact ih fuel' (q2 :: qt') (by simp)
              (fun x hx => hmem x (List.mem_cons_of_mem _ hx)) h.2

theorem replGo_noPat (p0 : Char) (pt : Text) (r0 : Char) (rtl : Text)
    (h1 : r0 ∉ (p0 :: pt)) (h2 : p0 ∉ (r0 :: rtl)) :
    ∀ (fuel : Nat) (s : Text),
      isSub (p0 :: pt) (replGo p0 pt (r0 :: rtl) fuel s) = false := by
  suffices H : ∀ (n : Nat) (fuel : Nat) (s : Text), s.length ≤ n →
      isSub (p0 :: pt) (replGo p0 pt (r0 :: rtl) fuel s) = false by
    intro fuel s
    exact H s.length fuel s (Nat.le_refl _)
  intro n
  induction n with
  | zero =>
    intro fuel s hs
    have hsz : s = [] := List.length_eq_zero.mp (by omega)
    subst hsz
    simp [replGo, isSub]
  | succ n ih =>
    intro fuel s hs
    cases s with
    | nil => simp [replGo, isSub]
    | cons c cs =>
      cases fuel with
      | zero => simp [replGo, isSub]
      | succ fuel' =>
        rw [replGo]
        by_cases hm : isPre (p0 :: pt) (c :: cs) = true
        · rw [if_pos hm]
          apply Bool.eq_false_iff.mpr
          intro habs
          have hZ : isSub (p0 :: pt)
              (replGo p0 pt (r0 :: rtl) fuel'
                ((c :: cs).drop (pt.length + 1))) = true :=
            isSub_skip p0 pt (r0 :: rtl) _ h2 habs
          have hfalse := ih fuel' ((c :: cs).drop (pt.length + 1))
            (by simp only [List.length_drop, List.length_cons] at hs ⊢; omega)
          rw [hfalse] at hZ
          exact Bool.false_ne_true hZ
        · rw [if_neg hm]
          have hZ := ih fuel' cs (by simpa using hs)
          have hpre : isPre (p0 :: pt)
              (c :: replGo p0 pt (r0 :: rtl) fuel' cs) = false := by
            apply Bool.eq_false_iff.mpr
            intro habs
            simp only [isPre, Bool.and_eq_true, beq_iff_eq] at habs
            obtain ⟨hpc, hrest⟩ := habs
            apply hm
            simp only [isPre, Bool.and_eq_true, beq_iff_eq]
            refine ⟨hpc, ?_⟩
            cases pt with
            | nil => rfl
            | cons q1 qt' =>
              exact replGo_auxA p0 (q1 :: qt') r0 rtl (p0 :: q1 :: qt') h1 cs
                fuel' (q1 :: qt') (by simp)
                (fun x hx => List.mem_cons_of_mem _ hx) hrest
          simp only [isSub]
          rw [hpre, hZ]
          rfl

theorem replGo_keepsFree (p0 : Char) (pt : Text) (r0 : Char) (rtl : Text)
    (q0 : Char) (qt : Text)
    (hrep : ∀ c ∈ (r0 :: rtl), c ∉ (q0 :: qt)) :
    ∀ (fuel : Nat) (s : Text), isSub (q0 :: qt) s = false →
      isSub (q0 :: qt) (replGo p0 pt (r0 :: rtl) fuel s) = false := by
  have hq0 : q0 ∉ (r0 :: rtl) := fun hin =>
    hrep q0 hin (List.mem_cons_self _ _)
  have hr0 : r0 ∉ (q0 :: qt) := hrep r0 (List.mem_cons_self _ _)
  suffices H : ∀ (n : Nat) (fuel : Nat) (s : Text), s.length ≤ n →
      isSub (q0 :: qt) s = false →
      isSub (q0 :: qt) (replGo p0 pt (r0 :: rtl) fuel s) = false by
    intro fuel s
    exact H s.length fuel s (Nat.le_refl _)
  intro n
  induction n with
  | zero =>
    intro fuel s hs _
    have hsz : s = [] := List.length_eq_zero.mp (by omega)
    subst hsz
    simp [replGo, isSub]
  | succ n ih =>
    intro fuel s hs hfree
    cases s with
    | nil => simp [replGo, isSub]
    | cons c cs =>
      cases fuel with
      | zero => simp [replGo, isSub]
      | succ fuel' =>
        rw [replGo]
        by_cases hm : isPre (p0 :: pt) (c :: cs) = true
        · rw [if_pos hm]
          apply Bool.eq_false_iff.mpr
          intro habs
          have hZ : isSub (q0 :: qt)
              (replGo p0 pt (r0 :: rtl) fuel'
                ((c :: cs).drop (pt.length + 1))) = true :=
            isSub_skip q0 qt (r0 :: rtl) _ hq0 habs
          have hdropfree : isSub (q0 :: qt) ((c :: cs).drop (pt.length + 1))
              = false := by
            apply Bool.eq_false_iff.mpr
            intro hd
            have := isSub_drop (q0 :: qt) (c :: cs) (pt.length + 1) hd
            rw [hfree] at this
            exact Bool.false_ne_true this
          have hfalse := ih fuel' ((c :: cs).drop (pt.length + 1))
            (by simp only [List.length_drop, List.length_cons] at hs ⊢; omega)
            hdropfree
          rw [hfalse] at hZ
          exact Bool.false_ne_true hZ
        · rw [if_neg hm]
          have hcsfree : isSub (q0 :: qt) cs = false := by
            apply Bool.eq_false_iff.mpr
            intro hd
            have : isSub (q0 :: qt) (c :: cs) = true := by
              simp only [isSub, Bool.or_eq_true]
              exact Or.inr hd
            rw [hfree] at this
            exact Bool.false_ne_true this
          have hZ := ih fuel' cs (by simpa using hs) hcsfree
          have hpre : isPre (q0 :: qt)
              (c :: replGo p0 pt (r0 :: rtl) fuel' cs) = false := by
            apply Bool.eq_false_iff.mpr
            intro habs
            simp only [isPre, Bool.and_eq_true, beq_iff_eq] at habs
            obtain ⟨hpc, hrest⟩ := habs
            have hfull : isPre (q0 :: qt) (c :: cs) = true := by
              simp only [isPre, Bool.and_eq_true, beq_iff_eq]
              refine ⟨hpc, ?_⟩
              cases qt with
              | nil => rfl
              | cons q1 qt' =>
                exact replGo_auxA p0 pt r0 rtl (q0 :: q1 :: qt') hr0 cs
                  fuel' (q1 :: qt') (by simp)
                  (fun x hx => List.mem_cons_of_mem _ hx) hrest
            have : isSub (q0 :: qt) (c :: cs) = true := by
              simp only [isSub, Bool.or_eq_true]
              exact Or.inl hfull
            rw [hfree] at this
            exact Bool.false_ne_true this
          simp only [isSub]
          rw [hpre, hZ]
          rfl

theorem digitChar_isDigit (d : Nat) : (digitChar d).isDigit = true := by
  unfold digitChar
  have h : d % 10 < 10 := Nat.mod_lt _ (by omega)
  set m := d % 10 with hm
  interval_cases m <;> decide

theorem natToDigitsGo_digit (fuel : Nat) :
    ∀ (n : Nat), ∀ c ∈ natToDigitsGo fuel n, c.isDigit = true := by
  induction fuel with
  | zero => intro n c hc; simp [natToDigitsGo] at hc
  | succ fuel ih =>
    intro n c hc
    rw [natToDigitsGo] at hc
    split at hc
    · simp only [List.mem_singleton] at hc
      subst hc
      exact digitChar_isDigit n
    · rcases List.mem_append.mp hc with h | h
      · exact ih (n / 10) c h
      · simp only [List.mem_singleton] at h
        subst h
        exact digitChar_isDigit _

theorem natToDigits_ne_nil (n : Nat) : natToDigits n ≠ [] := by
  unfold natToDigits natToDigitsGo
  split
  · simp
  · intro h
    have := List.append_eq_nil.mp h
    simp at this

theorem natToDigits_digit (n : Nat) : ∀ c ∈ natToDigits n, c.isDigit = true :=
  natToDigitsGo_digit (n + 1) n

theorem trim_decomp (x : Text) : ∃ a b, x = a ++ trim x ++ b := by
  refine ⟨x.takeWhile isWS,
    ((x.dropWhile isWS).reverse.takeWhile isWS).reverse, ?_⟩
  conv_lhs => rw [← List.takeWhile_append_dropWhile isWS x]
  rw [List.append_assoc]
  congr 1
  conv_lhs => rw [← List.reverse_reverse (x.dropWhile isWS)]
  conv_lhs =>
    rw [← List.takeWhile_append_dropWhile isWS (x.dropWhile isWS).reverse]
  rw [List.reverse_append]
  rfl

theorem isSub_trim (pat x : Text) (h : isSub pat (trim x) = true) :
    isSub pat x = true := by
  obtain ⟨a, b, hx⟩ := trim_decomp x
  rw [hx, List.append_assoc]
  exact isSub_append_left _ _ _ (isSub_append_right _ _ _ h)

theorem isSub_repl_year (ty : Nat) (x : Text) :
    isSub patNYear (repl patNYear (natToDigits ty ++ "차년도".toList) x)
      = false := by
  obtain ⟨d0, dtl, hd⟩ := List.exists_cons_of_ne_nil (natToDigits_ne_nil ty)
  have hd0 : d0.isDigit = true := natToDigits_digit ty d0 (hd ▸ List.mem_cons_self _ _)
  have hrep : natToDigits ty ++ "차년도".toList
      = d0 :: (dtl ++ "차년도".toList) := by rw [hd]; rfl
  show isSub ('N' :: "차년도".toList) _ = false
  rw [hrep]
  apply replGo_noPat
  · intro hin
    have : ∀ c ∈ ('N' :: "차년도".toList), c.isDigit = false := by decide
    have := this d0 hin
    rw [hd0] at this
    simp at this
  · intro hin
    rw [← hrep] at hin
    rcases List.mem_append.mp hin with h | h
    · have := natToDigits_digit ty 'N' h
      simp at this
    · simp at h

theorem isSub_repl_stage (st : Nat) (x : Text) :
    isSub patNStage (repl patNStage (natToDigits st ++ "단계".toList) x)
      = false := by
  obtain ⟨d0, dtl, hd⟩ := List.exists_cons_of_ne_nil (natToDigits_ne_nil st)
  have hd0 : d0.isDigit = true := natToDigits_digit st d0 (hd ▸ List.mem_cons_self _ _)
  have hrep : natToDigits st ++ "단계".toList
      = d0 :: (dtl ++ "단계".toList) := by rw [hd]; rfl
  show isSub ('N' :: "단계".toList) _ = false
  rw [hrep]
  apply replGo_noPat
  · intro hin
    have : ∀ c ∈ ('N' :: "단계".toList), c.isDigit = false := by decide
    have := this d0 hin
    rw [hd0] at this
    simp at this
  · intro hin
    rw [← hrep] at hin
    rcases List.mem_append.mp hin with h | h
    · have := natToDigits_digit st 'N' h
      simp at this
    · simp at h

theorem isSub_repl_stage_keeps_year (st : Nat) (x : Text)
    (h : isSub patNYear x = false) :
    isSub patNYear (repl patNStage (natToDigits st ++ "단계".toList) x)
      = false := by
  obtain ⟨d0, dtl, hd⟩ := List.exists_cons_of_ne_nil (natToDigits_ne_nil st)
  have hrep : natToDigits st ++ "단계".toList
      = d0 :: (dtl ++ "단계".toList) := by rw [hd]; rfl
  show isSub ('N' :: "차년도".toList)
    (replGo 'N' "단계".toList _ x.length x) = false
  rw [hrep]
  apply replGo_keepsFree _ _ _ _ _ _ _ x.length x h
  intro c hc
  rw [← hrep] at hc
  rcases List.mem_append.mp hc with hcc | hcc
  · have hcd := natToDigits_digit st c hcc
    intro hin
    have : ∀ e ∈ ('N' :: "차년도".toList), e.isDigit = false := by decide
    have := this c hin
    rw [hcd] at this
    simp at this
  · intro hin
    have hdk : ∀ e ∈ "단계".toList, e ∉ ('N' :: "차년도".toList) := by decide
    exact hdk c hcc hin

theorem fixT_noPat (ty st : Nat) (x : Text) :
    isSub patNYear (fixT ty st x) = false ∧
    isSub patNStage (fixT ty st x) = false := by
  simp only [fixT]
  set x1 := if isSub patNYear x = true
    then repl patNYear (natToDigits ty ++ "차년도".toList) x else x with hx1d
  have hx1 : isSub patNYear x1 = false := by
    rw [hx1d]
    split
    · exact isSub_repl_year ty x
    · next hng => exact Bool.eq_false_iff.mpr hng
  constructor
  · split
    · exact isSub_repl_stage_keeps_year st x1 hx1
    · exact hx1
  · split
    · exact isSub_repl_stage st x1
    · next hns => exact Bool.eq_false_iff.mpr hns

/-! ## Idempotence machinery (C8) -/

theorem mapSelf {α : Type} (f : α → α) (l : List α) (h : ∀ a ∈ l, f a = a) :
    l.map f = l := by
  induction l with
  | nil => rfl
  | cons a rest ih =>
    rw [List.map_cons, h a (List.mem_cons_self _ _),
      ih (fun x hx => h x (List.mem_cons_of_mem _ hx))]

theorem tn_filter_le (runs : List Run) (q : Run → Bool) (b : Bool) :
    (paraTNodes ⟨runs.filter q, b⟩).length ≤ (paraTNodes ⟨runs, b⟩).length := by
  induction runs with
  | nil => exact Nat.le_refl _
  | cons r rest ih =>
    rw [List.filter_cons]
    split
    · rw [paraTNodes_cons, paraTNodes_cons, List.length_append,
        List.length_append]
      omega
    · rw [paraTNodes_cons, List.length_append]
      omega

theorem setFirstT_some_count (runs : List Run) (s : Text) (rs : List Run)
    (b : Bool) (h : setFirstT runs s = some rs) :
    (paraTNodes ⟨rs, b⟩).length = (paraTNodes ⟨runs, b⟩).length := by
  induction runs generalizing rs with
  | nil => simp [setFirstT] at h
  | cons r rest ih =>
    cases ht : r.t with
    | some x =>
      simp only [setFirstT, ht] at h
      obtain rfl : ({ r with t := some s } :: rest) = rs := by
        injection h
      rw [paraTNodes_cons, paraTNodes_cons, List.length_append,
        List.length_append]
      have : (runTexts { r with t := some s }).length = (runTexts r).length := by
        simp [runTexts, ht]
      omega
    | none =>
      simp only [setFirstT, ht] at h
      rcases Option.map_eq_some'.mp h with ⟨rs', hrs', rfl⟩
      rw [paraTNodes_cons, paraTNodes_cons, List.length_append,
        List.length_append, ih rs' hrs']

theorem setFirstT_none_tnil (runs : List Run) (s : Text)
    (h : setFirstT runs s = none) : ∀ r ∈ runs, r.t = none := by
  induction runs with
  | nil => intro r hr; simp at hr
  | cons r rest ih =>
    cases ht : r.t with
    | some x => simp [setFirstT, ht] at h
    | none =>
      simp only [setFirstT, ht, Option.map_eq_none'] at h
      intro q hq
      rcases List.mem_cons.mp hq with rfl | hq'
      · exact ht
      · exact ih h q hq'

theorem tNodeCount_setParaText (p : Para) (s : Text)
    (h : tNodeCount p ≤ 1) : tNodeCount (setParaText p s) ≤ 1 := by
  obtain ⟨runs, lin⟩ := p
  simp only [setParaText]
  cases hE : setFirstT (runs.filter (fun r => r.tbl = none)) s with
  | some rs =>
    show tNodeCount ⟨rs, false⟩ ≤ 1
    unfold tNodeCount at h ⊢
    rw [setFirstT_some_count _ s rs false hE]
    calc (paraTNodes ⟨runs.filter (fun r => r.tbl = none), false⟩).length
        ≤ (paraTNodes ⟨runs, false⟩).length := tn_filter_le _ _ _
      _ ≤ 1 := h
  | none =>
    show tNodeCount ⟨runs.filter (fun r => r.tbl = none) ++ [⟨some s, none⟩],
      false⟩ ≤ 1
    unfold tNodeCount
    have hz : ∀ q ∈ runs.filter (fun r => r.tbl = none), runTexts q = [] := by
      intro q hq
      have hmem := List.mem_filter.mp hq
      have htb : q.tbl = none := by simpa using hmem.2
      exact runTexts_none q (setFirstT_none_tnil _ s hE q hq) htb
    rw [paraTNodes_nil_runs _ _ _ hz]
    simp [paraTNodes, runTexts]

theorem tNodeCount_cloneYear (yr : Nat) (p : Para) (h : tNodeCount p ≤ 1) :
    tNodeCount (cloneYear yr p) ≤ 1 := by
  simp only [cloneYear]
  split
  · exact tNodeCount_setParaText p _ h
  · exact h

theorem splitBlock_mem (b : Bool) (l : List Para) :
    (∀ q ∈ (splitBlock b l).1, q ∈ l) ∧ (∀ q ∈ (splitBlock b l).2, q ∈ l) := by
  induction l with
  | nil => exact ⟨fun q hq => by simp [splitBlock] at hq,
      fun q hq => by simp [splitBlock] at hq⟩
  | cons p rest ih =>
    simp only [splitBlock]
    split
    · exact ⟨fun q hq => by simp at hq, fun q hq => hq⟩
    split
    · constructor
      · intro q hq
        simp only [List.mem_singleton] at hq
        exact hq ▸ List.mem_cons_self _ _
      · intro q hq
        exact List.mem_cons_of_mem _ hq
    · cases hS : splitBlock b rest with
      | mk bd tl =>
        rw [hS] at ih
        constructor
        · intro q hq
          rcases List.mem_cons.mp hq with rfl | hq'
          · exact List.mem_cons_self _ _
          · exact List.mem_cons_of_mem _ (ih.1 q hq')
        · intro q hq
          exact List.mem_cons_of_mem _ (ih.2 q hq)

theorem clones_mem (L : List Para) (yrs : List Nat) (q : Para)
    (hq : q ∈ yrs.foldr (fun yr acc => L.map (cloneYear yr) ++ acc) []) :
    ∃ yr, ∃ p ∈ L, q = cloneYear yr p := by
  induction yrs with
  | nil => simp at hq
  | cons yr yrs' ih =>
    simp only [List.foldr_cons] at hq
    rcases List.mem_append.mp hq with h | h
    · obtain ⟨p, hp, rfl⟩ := List.mem_map.mp h
      exact ⟨yr, p, hp, rfl⟩
    · exact ih h

theorem expandScan_tn (b : Bool) (tgt nt : Text) (ty : Nat) (doc : List Para)
    (h : ∀ p ∈ doc, tNodeCount p ≤ 1) :
    ∀ q ∈ expandScan b tgt nt ty doc, tNodeCount q ≤ 1 := by
  induction doc with
  | nil => intro q hq; simp [expandScan] at hq
  | cons p rest ih =>
    have hp : tNodeCount p ≤ 1 := h p (List.mem_cons_self _ _)
    have hrest : ∀ x ∈ rest, tNodeCount x ≤ 1 :=
      fun x hx => h x (List.mem_cons_of_mem _ hx)
    intro q hq
    cases hS : splitBlock b rest with
    | mk bd tl =>
      have hbd : ∀ x ∈ bd, tNodeCount x ≤ 1 := by
        intro x hx
        have hmem := (splitBlock_mem b rest).1
        rw [hS] at hmem
        exact hrest x (hmem x hx)
      have htl : ∀ x ∈ tl, tNodeCount x ≤ 1 := by
        intro x hx
        have hmem := (splitBlock_mem b rest).2
        rw [hS] at hmem
        exact hrest x (hmem x hx)
      simp only [expandScan, hS] at hq
      by_cases hmatch : (paraText p == tgt) = true
      · rw [if_pos hmatch] at hq
        by_cases hty : ty < 3
        · rw [if_pos hty] at hq
          rcases List.mem_cons.mp hq with rfl | hq'
          · exact tNodeCount_setParaText p nt hp
          · exact ih hrest q hq'
        · rw [if_neg hty] at hq
          rcases List.mem_cons.mp hq with rfl | hq'
          · exact tNodeCount_setParaText p nt hp
          · rcases List.mem_append.mp hq' with h1 | h1
            · rcases List.mem_append.mp h1 with h2 | h2
              · exact hbd q h2
              · obtain ⟨yr, x, hx, rfl⟩ := clones_mem _ _ q h2
                rcases List.mem_cons.mp hx with rfl | hx'
                · exact tNodeCount_cloneYear yr _ (tNodeCount_setParaText p nt hp)
                · exact tNodeCount_cloneYear yr x (hbd x hx')
            · exact htl q h1
      · rw [if_neg hmatch] at hq
        rcases List.mem_cons.mp hq with rfl | hq'
        · exact hp
        · exact ih hrest q hq'

theorem runTexts_fixRun (ty st : Nat) (r : Run) :
    runTexts (fixRun ty st r) = (runTexts r).map (fixT ty st) := by
  obtain ⟨t, tbl⟩ := r
  cases t <;> cases tbl <;> simp [runTexts, fixRun]

theorem paraTNodes_fixPara (ty st : Nat) (p : Para) :
    paraTNodes (fixPara ty st p) = (paraTNodes p).map (fixT ty st) := by
  obtain ⟨runs, lin⟩ := p
  induction runs with
  | nil => rfl
  | cons r rest ih =>
    show paraTNodes ⟨fixRun ty st r :: rest.map (fixRun ty st), lin⟩ = _
    rw [paraTNodes_cons, paraTNodes_cons, List.map_append, runTexts_fixRun,
      show paraTNodes ⟨rest.map (fixRun ty st), lin⟩
          = (paraTNodes ⟨rest, lin⟩).map (fixT ty st) from ih]

theorem expandScan_id (b : Bool) (tgt nt : Text) (ty : Nat) (doc : List Para)
    (h : ∀ p ∈ doc, paraText p ≠ tgt) :
    expandScan b tgt nt ty doc = doc := by
  induction doc with
  | nil => rfl
  | cons p rest ih =>
    have hp : ¬ (paraText p == tgt) = true := by
      simp only [beq_iff_eq]
      exact h p (List.mem_cons_self _ _)
    simp only [expandScan]
    rw [if_neg hp, ih (fun q hq => h q (List.mem_cons_of_mem _ hq))]

theorem fixT_id (ty st : Nat) (x : Text)
    (h1 : isSub patNYear x = false) (h2 : isSub patNStage x = false) :
    fixT ty st x = x := by
  simp only [fixT]
  rw [if_neg (show ¬ isSub patNYear x = true by
      rw [h1]; exact Bool.false_ne_true)]
  rw [if_neg (show ¬ isSub patNStage x = true by
      rw [h2]; exact Bool.false_ne_true)]

theorem mem_paraTNodes_of_mem_runTexts (runs : List Run) (lin : Bool)
    (r : Run) (hr : r ∈ runs) (x : Text) (hx : x ∈ runTexts r) :
    x ∈ paraTNodes ⟨runs, lin⟩ := by
  induction runs with
  | nil => simp at hr
  | cons r0 rest ih =>
    rw [paraTNodes_cons, List.mem_append]
    rcases List.mem_cons.mp hr with rfl | hr'
    · exact Or.inl hx
    · exact Or.inr (ih hr')

theorem fixPara_id (ty st : Nat) (p : Para)
    (h : ∀ x ∈ paraTNodes p, isSub patNYear x = false ∧
        isSub patNStage x = false) :
    fixPara ty st p = p := by
  obtain ⟨runs, lin⟩ := p
  show Para.mk (runs.map (fixRun ty st)) lin = ⟨runs, lin⟩
  have hx : ∀ r ∈ runs, ∀ x ∈ runTexts r, isSub patNYear x = false ∧
      isSub patNStage x = false := fun r hr x hxr =>
    h x (mem_paraTNodes_of_mem_runTexts runs lin r hr x hxr)
  congr 1
  apply mapSelf
  intro r hr
  obtain ⟨t, tbl⟩ := r
  have hfix : ∀ x ∈ runTexts ⟨t, tbl⟩, fixT ty st x = x := by
    intro x hxx
    obtain ⟨ha, hb⟩ := hx ⟨t, tbl⟩ hr x hxx
    exact fixT_id ty st x ha hb
  cases t with
  | none =>
    cases tbl with
    | none => rfl
    | some ts =>
      simp only [fixRun, Option.map_none', Option.map_some']
      congr 2
      apply mapSelf
      intro x hxx
      exact hfix x (by simp [runTexts, hxx])
  | some xt =>
    cases tbl with
    | none =>
      simp only [fixRun, Option.map_none', Option.map_some']
      congr 2
      exact hfix xt (by simp [runTexts])
    | some ts =>
      simp only [fixRun, Option.map_some']
      congr 2
      · exact hfix xt (by simp [runTexts])
      · apply mapSelf
        intro x hxx
        exact hfix x (by simp [runTexts, hxx])

theorem fixAll_id (doc : List Para) (ty st : Nat)
    (h : ∀ p ∈ doc, ∀ x ∈ paraTNodes p, isSub patNYear x = false ∧
        isSub patNStage x = false) :
    fixAllNYearText doc ty st = doc := by
  unfold fixAllNYearText
  exact mapSelf _ _ (fun p hp => fixPara_id ty st p (h p hp))

theorem paraText_single (p : Para) (hc : tNodeCount p ≤ 1)
    (pat : Text) (hp : pat ≠ [])
    (hfree : ∀ x ∈ paraTNodes p, isSub pat x = false) :
    isSub pat (paraText p) = false := by
  unfold tNodeCount at hc
  cases hpn : paraTNodes p with
  | nil =>
    have : paraText p = [] := by
      unfold paraText rawPara
      rw [hpn]
      rfl
    rw [this]
    cases pat with
    | nil => cases hp rfl
    | cons a as => rfl
  | cons x xs =>
    have hxs : xs = [] := by
      rw [hpn] at hc
      simp only [List.length_cons] at hc
      exact List.length_eq_zero.mp (by omega)
    subst hxs
    have hraw : rawPara p = x := by
      unfold rawPara
      rw [hpn, catTexts_cons]
      simp [catTexts]
    apply Bool.eq_false_iff.mpr
    intro habs
    have : isSub pat x = true := by
      apply isSub_trim
      show isSub pat (trim x) = true
      unfold paraText at habs
      rw [hraw] at habs
      exact habs
    rw [hfree x (hpn ▸ List.mem_cons_self _ _)] at this
    exact Bool.false_ne_true this

/-! ## Schedule-row filling (C4) -/

theorem listModify_length {α : Type} (f : α → α) (j : Nat) (l : List α) :
    (listModify f j l).length = l.length := by
  induction l generalizing j with
  | nil => simp [listModify]
  | cons a rest ih =>
    cases j with
    | zero => rfl
    | succ j' => simp [listModify, ih]

theorem listModify_getD_ne {α : Type} (f : α → α) (j k : Nat) (l : List α)
    (d : α) (h : k ≠ j) :
    (listModify f j l).getD k d = l.getD k d := by
  induction l generalizing j k with
  | nil => simp [listModify]
  | cons a rest ih =>
    cases j with
    | zero =>
      cases k with
      | zero => omega
      | succ k' => rfl
    | succ j' =>
      cases k with
      | zero => rfl
      | succ k' =>
        simp only [listModify, List.getD_cons_succ]
        exact ih j' k' (by omega)

theorem listModify_getD_eq {α : Type} (f : α → α) (j : Nat) (l : List α)
    (d : α) (h : j < l.length) :
    (listModify f j l).getD j d = f (l.getD j d) := by
  induction l generalizing j with
  | nil => simp at h
  | cons a rest ih =>
    cases j with
    | zero => rfl
    | succ j' =>
      simp only [listModify, List.getD_cons_succ]
      exact ih j' (by simpa using h)

theorem writeAt_length {α : Type} (f : Nat → α → α) (ws : List Nat) (k : Nat)
    (l : List α) : (writeAt f ws k l).length = l.length := by
  induction ws generalizing k l with
  | nil => rfl
  | cons j rest ih => simp [writeAt, ih, listModify_length]

theorem writeAt_getD_nm {α : Type} (f : Nat → α → α) (ws : List Nat) (k : Nat)
    (l : List α) (d : α) (j : Nat) (h : ∀ m ∈ ws, m ≠ j) :
    (writeAt f ws k l).getD j d = l.getD j d := by
  induction ws generalizing k l with
  | nil => rfl
  | cons m rest ih =>
    simp only [writeAt]
    rw [ih (k + 1) _ (fun x hx => h x (List.mem_cons_of_mem _ hx))]
    exact listModify_getD_ne _ _ _ _ _ (fun he => h m (List.mem_cons_self _ _) he.symm)

theorem writeAt_getD_at {α : Type} (f : Nat → α → α) (ws : List Nat) (k : Nat)
    (l : List α) (d : α) (i : Nat)
    (hi : i < ws.length)
    (hdis : List.Pairwise (· ≠ ·) ws)
    (hb : ws.getD i 0 < l.length) :
    (writeAt f ws k l).getD (ws.getD i 0) d
      = f (k + i) (l.getD (ws.getD i 0) d) := by
  induction ws generalizing k l i with
  | nil => simp at hi
  | cons j rest ih =>
    obtain ⟨hhead, hrest⟩ := List.pairwise_cons.mp hdis
    cases i with
    | zero =>
      simp only [List.getD_cons_zero] at hb ⊢
      simp only [writeAt]
      rw [writeAt_getD_nm _ _ _ _ _ _ (fun m hm he => hhead m hm he.symm)]
      rw [listModify_getD_eq _ _ _ _ hb, Nat.add_zero]
    | succ i' =>
      simp only [List.getD_cons_succ] at hb ⊢
      simp only [writeAt]
      have hmem : rest.getD i' 0 ∈ rest := by
        have hlen : i' < rest.length := by simpa using hi
        rw [List.getD_eq_getElem rest 0 hlen]
        exact List.getElem_mem hlen
      have hne : rest.getD i' 0 ≠ j := fun he => hhead _ hmem he.symm
      rw [ih (k + 1) _ i' (by simpa using hi) hrest
        (by rw [listModify_length]; exact hb)]
      rw [listModify_getD_ne _ _ _ _ _ hne]
      congr 1
      omega

theorem setLast_getLastD {α : Type} (f : α → α) :
    ∀ (l : List α) (d : α), l ≠ [] →
      (setLast f l).getLastD d = f (l.getLastD d) := by
  intro l
  induction l with
  | nil => intro d h; cases h rfl
  | cons a rest ih =>
    intro d _
    cases rest with
    | nil => rfl
    | cons b r' =>
      show (a :: setLast f (b :: r')).getLastD d = f ((a :: b :: r').getLastD d)
      rw [List.getLastD_cons, List.getLastD_cons]
      exact ih a (by simp)

theorem clonedRows_zero (rows1 : List Row) (off : Nat) (s : Sect) :
    clonedRows rows1 off s 0 = rows1 := by
  unfold clonedRows
  cases s.taskIdxs.getLast? with
  | none => rfl
  | some tLast => simp [List.take_append_drop]

theorem clonedRows_ge (rows1 : List Row) (off : Nat) (s : Sect) (needed : Nat) :
    rows1.length ≤ (clonedRows rows1 off s needed).length := by
  unfold clonedRows
  cases s.taskIdxs.getLast? with
  | none => exact Nat.le_refl _
  | some tLast =>
    simp only [List.length_append, List.length_take, List.length_replicate,
      List.length_drop]
    omega

theorem rawPara_setParaText (runs : List Run) (lin : Bool) (s : Text)
    (htbl : ∀ r ∈ runs, r.tbl = none)
    (hcnt : (paraTNodes ⟨runs, lin⟩).length ≤ 1) :
    rawPara (setParaText ⟨runs, lin⟩ s) = s := by
  induction runs generalizing lin with
  | nil =>
    show rawPara ⟨[⟨some s, none⟩], false⟩ = s
    rw [rawPara_cons]
    simp [runTexts, catTexts_cons, rawPara, paraTNodes, catTexts]
  | cons r rest ih =>
    have hr : r.tbl = none := htbl r (List.mem_cons_self _ _)
    have hrest : ∀ q ∈ rest, q.tbl = none :=
      fun q hq => htbl q (List.mem_cons_of_mem _ hq)
    simp only [setParaText]
    rw [filter_tbl_none _ htbl]
    cases ht : r.t with
    | some x =>
      simp only [setFirstT, ht]
      rw [rawPara_cons]
      have hx : runTexts { r with t := some s } = [s] := by
        simp [runTexts, hr]
      rw [hx]
      have hrest0 : paraTNodes ⟨rest, lin⟩ = [] := by
        have : paraTNodes ⟨r :: rest, lin⟩ = x :: paraTNodes ⟨rest, lin⟩ := by
          rw [paraTNodes_cons]
          simp [runTexts, ht, hr]
        rw [this] at hcnt
        simp only [List.length_cons] at hcnt
        exact List.length_eq_zero.mp (by omega)
      have : rawPara ⟨rest, false⟩ = [] := by
        show catTexts (paraTNodes ⟨rest, false⟩) = []
        have he : paraTNodes ⟨rest, false⟩ = paraTNodes ⟨rest, lin⟩ := rfl
        rw [he, hrest0]
        rfl
      rw [this]
      simp [catTexts_cons, catTexts]
    | none =>
      have hz : runTexts r = [] := runTexts_none r ht hr
      have hcnt' : (paraTNodes ⟨rest, lin⟩).length ≤ 1 := by
        have : paraTNodes ⟨r :: rest, lin⟩ = paraTNodes ⟨rest, lin⟩ := by
          rw [paraTNodes_cons, hz, List.nil_append]
        rwa [this] at hcnt
      have hstep := ih lin hrest hcnt'
      simp only [setParaText] at hstep
      rw [filter_tbl_none _ hrest] at hstep
      simp only [setFirstT, ht]
      cases hE : setFirstT rest s with
      | some rs =>
        rw [hE] at hstep
        simp only [Option.map_some']
        rw [rawPara_cons, hz]
        simpa [catTexts] using hstep
      | none =>
        rw [hE] at hstep
        simp only [Option.map_none']
        show rawPara ⟨(r :: rest) ++ [⟨some s, none⟩], false⟩ = s
        rw [List.cons_append, rawPara_cons, hz]
        simpa [catTexts] using hstep

theorem setCellText_simple_clear (c : Cell) (h : simpleCell c = true) :
    cellText (setCellText c []) = [] := by
  obtain ⟨ps, ra, sz⟩ := c
  simp only [simpleCell, Bool.and_eq_true, decide_eq_true_eq,
    List.all_eq_true] at h
  obtain ⟨hlen, hall⟩ := h
  cases ps with
  | nil => rfl
  | cons p rest =>
    have hr : rest = [] := by
      simp only [List.length_cons] at hlen
      exact List.length_eq_zero.mp (by omega)
    subst hr
    have hp : simplePara p = true := hall p (List.mem_cons_self _ _)
    obtain ⟨runs, lin⟩ := p
    simp only [simplePara, Bool.and_eq_true, decide_eq_true_eq,
      List.all_eq_true, tNodeCount] at hp
    obtain ⟨htbl, hcnt⟩ := hp
    have htbl' : ∀ r ∈ runs, r.tbl = none := by
      intro r hr
      have := htbl r hr
      simpa using this
    have hraw := rawPara_setParaText runs lin [] htbl' hcnt
    show cellText ⟨[setParaText ⟨runs, lin⟩ []], ra, sz⟩ = []
    simp only [cellText, List.map_cons, List.map_nil]
    rw [hraw]
    rfl

theorem fillRowStep_clear (tasks : List Task) (i : Nat) (r : Row)
    (hi : tasks.length ≤ i)
    (h1 : simpleCell (r.cells.headD default) = true)
    (h2 : simpleCell (r.cells.getLastD default) = true) :
    cellText ((fillRowStep tasks i r).cells.headD default) = [] ∧
    cellText ((fillRowStep tasks i r).cells.getLastD default) = [] := by
  obtain ⟨cells⟩ := r
  cases cells with
  | nil => exact ⟨rfl, rfl⟩
  | cons c rest =>
    have hni : ¬ i < tasks.length := by omega
    simp only [fillRowStep]
    rw [dif_neg hni]
    cases rest with
    | nil =>
      rw [if_neg (by simp)]
      simp only [List.modifyHead]
      simp only [List.headD_cons, List.getLastD_cons] at h1 h2 ⊢
      have := setCellText_simple_clear c h1
      exact ⟨this, this⟩
    | cons b r' =>
      rw [if_pos (by simp)]
      simp only [List.modifyHead]
      simp only [List.headD_cons, List.getLastD_cons] at h1 h2 ⊢
      constructor
      · show cellText ((setLast (fun x => setCellText x [])
            (setCellText c [] :: b :: r')).headD default) = []
        have : setLast (fun x => setCellText x []) (setCellText c [] :: b :: r')
            = setCellText c [] :: setLast (fun x => setCellText x []) (b :: r') := rfl
        rw [this, List.headD_cons]
        exact setCellText_simple_clear c h1
      · show cellText ((setLast (fun x => setCellText x [])
            (setCellText c [] :: b :: r')).getLastD default) = []
        rw [setLast_getLastD _ _ _ (by simp), List.getLastD_cons,
          List.getLastD_cons]
        exact setCellText_simple_clear _ h2

/-- C4 (confirmed): when one schedule section's writable rows are filled in
    order, no row is ever removed (the row count only grows, and stays
    exactly the same when the section's input has 0 entries), and every
    writable row whose position is at or beyond the input length gets both
    its first (task) cell and its last (result) cell cleared to the empty
    text (for a one-cell row the two coincide, and the header/continuation
    rows are untouched by the write). -/
theorem c4_thm (rows : List Row) (off : Nat) (s : Sect)
    (sched : List (Text × List Task)) (ty : Nat)
    (hdis : List.Pairwise (· ≠ ·) (sectWAll sched ty rows off s))
    (hbnd : ∀ j ∈ sectWAll sched ty rows off s,
        j < (sectRows2 sched ty rows off s).length) :
    rows.length ≤ (processSection sched ty (rows, off) s).1.length ∧
    (sectionTasks sched s = [] →
      (processSection sched ty (rows, off) s).1.length = rows.length) ∧
    (∀ i, (sectionTasks sched s).length ≤ i →
      ∀ _ : i < (sectWAll sched ty rows off s).length,
      simpleCell (((sectRows2 sched ty rows off s).getD
          ((sectWAll sched ty rows off s).getD i 0) default).cells.headD
          default) = true →
      simpleCell (((sectRows2 sched ty rows off s).getD
          ((sectWAll sched ty rows off s).getD i 0) default).cells.getLastD
          default) = true →
      cellText (((processSection sched ty (rows, off) s).1.getD
          ((sectWAll sched ty rows off s).getD i 0) default).cells.headD
          default) = [] ∧
      cellText (((processSection sched ty (rows, off) s).1.getD
          ((sectWAll sched ty rows off s).getD i 0) default).cells.getLastD
          default) = []) := by
  refine ⟨?_, ?_, ?_⟩
  · show rows.length ≤ (writeAt _ _ 0 (sectRows2 sched ty rows off s)).length
    rw [writeAt_length]
    calc rows.length = (headerFixedRows ty rows off s).length := by
          rw [headerFixedRows, listModify_length]
      _ ≤ (sectRows2 sched ty rows off s).length := clonedRows_ge _ _ _ _
  · intro ht
    show (writeAt _ _ 0 (sectRows2 sched ty rows off s)).length = rows.length
    rw [writeAt_length]
    have hz : sectNeeded sched ty rows off s = 0 := by
      unfold sectNeeded sectionNeeded
      rw [ht]
      simp
    unfold sectRows2
    rw [hz, clonedRows_zero, headerFixedRows, listModify_length]
  · intro i hlen hi hc1 hc2
    have hjb : (sectWAll sched ty rows off s).getD i 0
        < (sectRows2 sched ty rows off s).length := by
      apply hbnd
      rw [List.getD_eq_getElem _ 0 hi]
      exact List.getElem_mem hi
    have hval : ((processSection sched ty (rows, off) s).1.getD
        ((sectWAll sched ty rows off s).getD i 0) default)
        = fillRowStep (sectionTasks sched s) i
          ((sectRows2 sched ty rows off s).getD
            ((sectWAll sched ty rows off s).getD i 0) default) := by
      show (writeAt (fun k => fillRowStep (sectionTasks sched s) k)
          (sectWAll sched ty rows off s) 0 (sectRows2 sched ty rows off s)).getD
          ((sectWAll sched ty rows off s).getD i 0) default = _
      rw [writeAt_getD_at _ _ 0 _ _ i hi hdis hjb]
      rw [Nat.zero_add]
    rw [hval]
    exact fillRowStep_clear _ i _ hlen hc1 hc2

/-- C4 (witness): a year-2 section whose input supplies 0 entries has both
    existing writable rows' task and result cells cleared and no row removed. -/
theorem c4_witness :
    (3 : Nat) ≤ (processSection c4Sched 2 (c4Rows, 0) c4Sect).1.length ∧
    (processSection c4Sched 2 (c4Rows, 0) c4Sect).1.length = 3 ∧
    cellText (((processSection c4Sched 2 (c4Rows, 0) c4Sect).1.getD
        ((sectWAll c4Sched 2 c4Rows 0 c4Sect).getD 0 0) default).cells.headD
        default) = [] ∧
    cellText (((processSection c4Sched 2 (c4Rows, 0) c4Sect).1.getD
        ((sectWAll c4Sched 2 c4Rows 0 c4Sect).getD 1 0) default).cells.getLastD
        default) = [] := by
  have h := c4_thm c4Rows 0 c4Sect c4Sched 2 (by decide) (by decide)
  refine ⟨h.1, h.2.1 (by decide), ?_, ?_⟩
  · exact ((h.2.2 0 (by decide) (by decide) (by decide) (by decide))).1
  · exact ((h.2.2 1 (by decide) (by decide) (by decide) (by decide))).2

/-! ## Rerun idempotence (C8) -/

/-- C8 (amended): provided every paragraph of the document carries at most
    one text node, running the year-block expansion a second time on its own
    output changes nothing at all — in particular it inserts no additional
    blocks: after the first run no text node contains the `N차년도` or
    `N단계` pattern, hence no paragraph's text equals either generic anchor,
    so both scans match nothing and the final sweep rewrites nothing.
    (Without that proviso the claim as stated fails: an anchor whose text is
    split across several text nodes survives the first run unchanged and is
    re-expanded by the second run — see the counterexample.) -/
theorem c8_thm (doc : List Para) (ty st : Nat)
    (h : ∀ p ∈ doc, tNodeCount p ≤ 1) :
    expandYearBlocks (expandYearBlocks doc ty st) ty st
      = expandYearBlocks doc ty st := by
  have hfree : ∀ p ∈ expandYearBlocks doc ty st, ∀ x ∈ paraTNodes p,
      isSub patNYear x = false ∧ isSub patNStage x = false := by
    intro p hp x hx
    unfold expandYearBlocks fixAllNYearText at hp
    obtain ⟨q, hq, rfl⟩ := List.mem_map.mp hp
    rw [paraTNodes_fixPara] at hx
    obtain ⟨y, hy, rfl⟩ := List.mem_map.mp hx
    exact fixT_noPat ty st y
  have hcnt : ∀ p ∈ expandYearBlocks doc ty st, tNodeCount p ≤ 1 := by
    intro p hp
    unfold expandYearBlocks fixAllNYearText at hp
    obtain ⟨q, hq, rfl⟩ := List.mem_map.mp hp
    have h1 : ∀ x ∈ expandGoalYearBlocks doc ty st, tNodeCount x ≤ 1 :=
      expandScan_tn true goalTarget (goalNew st) ty doc h
    have h2 : ∀ x ∈ expandContentYearBlocks (expandGoalYearBlocks doc ty st)
        ty st, tNodeCount x ≤ 1 :=
      expandScan_tn false contentTarget (contentNew st) ty _ h1
    show tNodeCount (fixPara ty st q) ≤ 1
    unfold tNodeCount
    rw [paraTNodes_fixPara, List.length_map]
    exact h2 q hq
  have hnt : ∀ p ∈ expandYearBlocks doc ty st,
      paraText p ≠ goalTarget ∧ paraText p ≠ contentTarget := by
    intro p hp
    have hfp : ∀ x ∈ paraTNodes p, isSub patNYear x = false :=
      fun x hx => (hfree p hp x hx).1
    have hsingle := paraText_single p (hcnt p hp) patNYear (by decide) hfp
    constructor
    · intro he
      have hsg : isSub patNYear goalTarget = true := by decide
      rw [← he, hsingle] at hsg
      exact Bool.false_ne_true hsg
    · intro he
      have hsc : isSub patNYear contentTarget = true := by decide
      rw [← he, hsingle] at hsc
      exact Bool.false_ne_true hsc
  show fixAllNYearText (expandContentYearBlocks
      (expandGoalYearBlocks (expandYearBlocks doc ty st) ty st) ty st) ty st
    = expandYearBlocks doc ty st
  rw [show expandGoalYearBlocks (expandYearBlocks doc ty st) ty st
      = expandYearBlocks doc ty st from
    expandScan_id _ _ _ _ _ (fun p hp => (hnt p hp).1)]
  rw [show expandContentYearBlocks (expandYearBlocks doc ty st) ty st
      = expandYearBlocks doc ty st from
    expandScan_id _ _ _ _ _ (fun p hp => (hnt p hp).2)]
  exact fixAll_id _ ty st hfree

/-- C8 (witness). -/
theorem c8_witness :
    expandYearBlocks (expandYearBlocks c8WDoc 3 1) 3 1
      = expandYearBlocks c8WDoc 3 1 :=
  c8_thm c8WDoc 3 1 (by decide)

/-- C8 (counterexample): with the generic goal-anchor text split across
    three text nodes of one paragraph, the final sweep cannot erase the
    generic pattern from the first run's output (no single text node
    contains it), that paragraph's derived text still equals the anchor, and
    the second run matches and expands it again: one run yields 5
    paragraphs, a rerun on that output yields 6. -/
theorem c8_counterexample :
    (expandYearBlocks (expandYearBlocks c8Doc 3 1) 3 1).length = 6 ∧
    (expandYearBlocks c8Doc 3 1).length = 5 := by
  decide

end KGrant
